import Mathlib

/-!
# DnsAbuse: service registry, snapshot sweep and startup of `cmd/dnsabuse/main.go`

A shallow embedding of `saveSnapshot`, `loadSnapshot` and `main`.  Go strings are
`String`, a `[]byte` is a list of numbers and a `nil` slice is `none`.  Calls the
program makes on its collaborators (service methods, the file system, the DNS
library) are recorded, in order, in a trace of events.
-/

set_option autoImplicit false

namespace DnsAbuse

/-! ## Configuration store (`ko`, a `koanf` instance) -/

/-- A `[]byte` value. -/
abbrev Bytes := List Nat

/-- The global configuration store `ko`, seen through the typed getters the program
uses.  A getter returns the zero value of its type for a key that is not set. -/
structure Koanf where
  /-- Getter `ko.Bool(key)`. -/
  bool : String → Bool
  /-- Getter `ko.String(key)`. -/
  string : String → String
  /-- Getter `ko.Int(key)`. -/
  int : String → Int
  /-- Getter `ko.Duration(key)`, in nanoseconds. -/
  duration : String → Int

/-- Ways in which the process is brought down by the program itself. -/
inductive Fatal
  /-- Panic of `ko.MustString(key)`: the value is empty. -/
  | mustString (key : String)
  /-- Panic of `ko.MustInt(key)`: the value is zero. -/
  | mustInt (key : String)
  /-- Panic of `ko.MustDuration(key)`: the value is zero. -/
  | mustDuration (key : String)
  /-- Exit through `lo.Fatalf("error preparing: %v", err)`. -/
  | errorPreparing (err : String)
  /-- Failure of `register`: the name or its zone label is already taken. -/
  | duplicate (name : String)
  /-- Panic of `mux.HandleFunc` on an empty pattern. -/
  | invalidPattern
  /-- A format string outside the fragment of `fmt.Sprintf` that is modelled. -/
  | badFormat (format : String)
  deriving DecidableEq, Repr

/-- Getter `ko.MustString(key)`: the value, or `none` for the panic on an empty one. -/
def MustString (ko : Koanf) (key : String) : Option String :=
  if ko.string key = "" then none else some (ko.string key)

/-- Getter `ko.MustInt(key)`: the value, or `none` for the panic on zero. -/
def MustInt (ko : Koanf) (key : String) : Option Int :=
  if ko.int key = 0 then none else some (ko.int key)

/-- Getter `ko.MustDuration(key)`: the value, or `none` for the panic on zero. -/
def MustDuration (ko : Koanf) (key : String) : Option Int :=
  if ko.duration key = 0 then none else some (ko.duration key)

/-! ## Services, files and the trace -/

/-- The pair `(b, err)` returned by a service's `Dump()`. -/
structure DumpResult where
  /-- The bytes `b`; `none` is the `nil` slice. -/
  data : Option Bytes
  /-- The error `err`; `none` is `nil`. -/
  err : Option String
  deriving DecidableEq, Repr

/-- A `Service` value held by the registry.  The service packages are outside this
file: a service is its internal state, kept opaque, and what its `Dump` method
returns when it is called during sweep number `n`. -/
structure Service where
  /-- The internal state, opaque to `main.go`. -/
  state : Bytes
  /-- The result of `Dump()` in sweep number `n`. -/
  Dump : Nat → DumpResult

/-- The registry `h.services`, a Go map from name to service, listed in the order in
which a `range` loop visits it. -/
abbrev Registry := List (String × Service)

/-- A call the program makes, as it appears in the trace. -/
inductive Event
  /-- Log line `lo.Printf(format, args...)`. -/
  | logf (format : String) (args : List String)
  /-- Call `s.Dump()` on the registry entry `name`. -/
  | dump (name : String)
  /-- Call `os.WriteFile(path, data, 0644)` made for the registry entry `name`. -/
  | writeFile (name : String) (path : String) (data : Bytes)
  /-- Call `os.ReadFile(path)`. -/
  | readFile (path : String)
  /-- Call `Load(data)` on the service `name`. -/
  | load (name : String) (data : Bytes)
  /-- Call `h.register(name, s, mux)`. -/
  | register (name : String)
  /-- Call `mux.HandleFunc(pattern, f)`. -/
  | handleFunc (pattern : String)
  /-- Call `dns.NewRR(text)`. -/
  | newRR (text : String)
  deriving DecidableEq, Repr

/-- The files on disk: the contents stored at a path, `none` where no file exists. -/
abbrev FS := String → Option Bytes

/-- The world outside the program: the disk and the trace of calls made so far. -/
structure World where
  /-- The files on disk. -/
  fs : FS
  /-- The calls made so far, oldest first. -/
  events : List Event

/-- Append one call to the trace. -/
def World.emit (w : World) (e : Event) : World :=
  { w with events := w.events ++ [e] }

/-- What the operating system does with one `os.WriteFile` call. -/
inductive WriteOutcome
  /-- The write succeeds. -/
  | ok
  /-- The write fails with `err`; `left` is what the path holds afterwards. -/
  | failed (err : String) (left : Option Bytes)
  deriving DecidableEq, Repr

/-- An error of `os.ReadFile`. -/
inductive ReadError
  /-- An error of dynamic type `*os.PathError`. -/
  | pathError (msg : String)
  /-- An error of any other type. -/
  | other (msg : String)
  deriving DecidableEq, Repr

/-- Replace the contents stored at `path`. -/
def FS.set (fs : FS) (path : String) (c : Option Bytes) : FS :=
  fun p => if p = path then c else fs p

/-- Call `os.WriteFile(path, data, 0644)` under the outcome `out`: on success the
file holds exactly `data` (it is created or truncated first). -/
def WriteFile (out : WriteOutcome) (fs : FS) (path : String) (data : Bytes) :
    FS × Option String :=
  match out with
  | .ok => (fs.set path (some data), none)
  | .failed err left => (fs.set path left, some err)

/-- Call `os.ReadFile(path)`: an injected fault, or the contents on disk; a path
that holds no file gives a `*os.PathError`. -/
def ReadFile (fault : String → Option ReadError) (fs : FS) (path : String) :
    Except ReadError Bytes :=
  match fault path with
  | some e => .error e
  | none =>
    match fs path with
    | some b => .ok b
    | none => .error (.pathError "no such file or directory")

/-! ## The snapshot sweep of `saveSnapshot` -/

/-- The outcome of the `os.WriteFile` call made for entry `name` in sweep `n`. -/
abbrev WriteOracle := Nat → String → WriteOutcome

/-- A run that either goes on in a new state or brings the process down, in the
state reached. -/
abbrev Run (σ : Type) := Except (Fatal × σ) σ

/-- Body of the loop `for name, s := range h.services` of `saveSnapshot`, for one
registry entry, in sweep number `n`. -/
def sweepEntry (ko : Koanf) (wr : WriteOracle) (n : Nat) (e : String × Service)
    (w : World) : Run World :=
  if !ko.bool (e.1 ++ ".enabled") || !ko.bool (e.1 ++ ".snapshot_enabled") then
    .ok w
  else
    let r := e.2.Dump n
    let w1 := w.emit (.dump e.1)
    let w2 :=
      match r.err with
      | some err => w1.emit (.logf "error generating %s snapshot: %v" [e.1, err])
      | none => w1
    match r.data with
    | none => .ok w2
    | some b =>
      match MustString ko (e.1 ++ ".snapshot_file") with
      | none => .error (.mustString (e.1 ++ ".snapshot_file"), w2)
      | some filePath =>
        let w3 := w2.emit (.logf "saving %s snapshot to %s" [e.1, filePath])
        let res := WriteFile (wr n e.1) w3.fs filePath b
        let w4 : World := { fs := res.1, events := w3.events ++ [.writeFile e.1 filePath b] }
        match res.2 with
        | some err => .ok (w4.emit (.logf "error writing %s snapshot: %v" [e.1, err]))
        | none => .ok w4

/-- The loop `for name, s := range h.services` of `saveSnapshot`: one sweep. -/
def sweep (ko : Koanf) (wr : WriteOracle) (n : Nat) : Registry → World → Run World
  | [], w => .ok w
  | e :: rest, w =>
    match sweepEntry ko wr n e w with
    | .error x => .error x
    | .ok w1 => sweep ko wr n rest w1

/-! ## The signal loop of `saveSnapshot` -/

/-- A signal number (`syscall.Signal`). -/
abbrev Signal := Nat

/-- Signal `syscall.SIGHUP`. -/
def SIGHUP : Signal := 1
/-- Signal `syscall.SIGINT`. -/
def SIGINT : Signal := 2
/-- Signal `syscall.SIGQUIT`. -/
def SIGQUIT : Signal := 3
/-- Signal `syscall.SIGTERM`. -/
def SIGTERM : Signal := 15
/-- Constant `SIGUNUSED = syscall.Signal(0x1f)`. -/
def SIGUNUSED : Signal := 0x1f

/-- Method `Signal.String()`: the name of a signal in the log line. -/
def signalString (i : Signal) : String :=
  if i = 1 then "hangup"
  else if i = 2 then "interrupt"
  else if i = 3 then "quit"
  else if i = 15 then "terminated"
  else if i = 31 then "bad system call"
  else "signal " ++ toString i

/-- The signals passed to `signal.Notify`: only these reach `interruptSignal`. -/
def notified : List Signal := [SIGTERM, SIGHUP, SIGQUIT, SIGINT, SIGUNUSED]

/-- The termination signals among the notified ones. -/
def terminationSignals : List Signal := [SIGTERM, SIGHUP, SIGQUIT, SIGINT]

/-- State of the process as far as `saveSnapshot` decides it. -/
inductive Proc
  /-- Blocked in `<-interruptSignal`, after `sweeps` completed sweeps. -/
  | listening (sweeps : Nat) (w : World)
  /-- Terminated by `os.Exit(code)`. -/
  | exited (code : Nat) (w : World)
  /-- Terminated by a panic. -/
  | crashed (f : Fatal) (w : World)

/-- The loop `for { select { case i := <-interruptSignal: ... } }` of `saveSnapshot`,
run on the signals received on the channel, in order; `n` counts the sweeps done. -/
def saveSnapshot (ko : Koanf) (wr : WriteOracle) (reg : Registry) :
    List Signal → Nat → World → Proc
  | [], n, w => .listening n w
  | i :: rest, n, w =>
    match sweep ko wr n reg (w.emit (.logf "received SIGNAL: `%s`" [signalString i])) with
    | .error (f, w1) => .crashed f w1
    | .ok w1 => if i ≠ SIGUNUSED then .exited 0 w1 else saveSnapshot ko wr reg rest (n + 1) w1

/-! ## Formatting and address parsing used by `main` -/

/-- An operand of `fmt.Sprintf`. -/
inductive Arg
  /-- A `string` operand. -/
  | str (s : String)
  /-- An `int` operand. -/
  | int (n : Int)

/-- Function `fmt.Sprintf` on the characters of the format, for the fragment the
program uses: the verb `%s` with a string operand, `%d` with an integer operand, and
`%%`; every other character is copied.  Any other use of `%`, a missing operand or an
operand left over is outside the fragment (`none`). -/
def formatChars : List Char → List Arg → Option (List Char)
  | [], [] => some []
  | [], _ :: _ => none
  | c :: rest, args =>
    if c = '%' then
      match rest, args with
      | v :: rest1, a :: args1 =>
        if v = 's' then
          match a with
          | .str x => (formatChars rest1 args1).map (fun r => x.data ++ r)
          | .int _ => none
        else if v = 'd' then
          match a with
          | .int k => (formatChars rest1 args1).map (fun r => (toString k).data ++ r)
          | .str _ => none
        else if v = '%' then (formatChars rest1 (a :: args1)).map (fun r => '%' :: r)
        else none
      | v :: rest1, [] =>
        if v = '%' then (formatChars rest1 []).map (fun r => '%' :: r) else none
      | [], _ => none
    else (formatChars rest args).map (fun r => c :: r)

/-- Function `fmt.Sprintf(format, args...)`. -/
def Sprintf (format : String) (args : List Arg) : Option String :=
  (formatChars format.data args).map String.mk

/-- Index of the first occurrence of `c` (`IndexByteString`). -/
def indexByte : List Char → Char → Option Nat
  | [], _ => none
  | x :: xs, c => if x = c then some 0 else (indexByte xs c).map (fun i => i + 1)

/-- Index of the last occurrence of `c` (`LastIndexByteString`). -/
def lastIndexByte : List Char → Char → Option Nat
  | [], _ => none
  | x :: xs, c =>
    match lastIndexByte xs c with
    | some i => some (i + 1)
    | none => if x = c then some 0 else none

/-- Function `net.SplitHostPort(hostport)`: host and port, or the reason of the
`AddrError`. -/
def SplitHostPort (hostport : String) : Except String (String × String) :=
  let hp := hostport.data
  match lastIndexByte hp ':' with
  | none => .error "missing port in address"
  | some i =>
    let bracket : Except String (List Char × Nat × Nat) :=
      if hp.head? = some '[' then
        match indexByte hp ']' with
        | none => .error "missing ']' in address"
        | some e =>
          if e + 1 = hp.length then .error "missing port in address"
          else if e + 1 = i then .ok ((hp.take e).drop 1, 1, e + 1)
          else if hp.get? (e + 1) = some ':' then .error "too many colons in address"
          else .error "missing port in address"
      else if (indexByte (hp.take i) ':').isSome then .error "too many colons in address"
      else .ok (hp.take i, 0, 0)
    match bracket with
    | .error why => .error why
    | .ok (host, j, k) =>
      if (indexByte (hp.drop j) '[').isSome then .error "unexpected '[' in address"
      else if (indexByte (hp.drop k) ']').isSome then .error "unexpected ']' in address"
      else .ok (String.mk host, String.mk (hp.drop (i + 1)))

/-- Function `strings.TrimPrefix(s, p)`. -/
def TrimPrefix (s p : String) : String :=
  if p.data.isPrefixOf s.data then String.mk (s.data.drop p.data.length) else s

/-- The port `main` puts in the help records: the port of `net.SplitHostPort`, or, when
that fails, the address without a leading colon. -/
def portOf (address : String) : String :=
  match SplitHostPort address with
  | .ok hp => hp.2
  | .error _ => TrimPrefix address ":"

/-- Constant `HELP_TTL`. -/
def HELP_TTL : Int := 86400

/-! ## The router (`dns.ServeMux`) -/

/-- The handlers `main` wires into the router. -/
inductive Handler
  /-- The handler `register` makes for the service `name`. -/
  | service (name : String)
  /-- Handler `h.handlePi`. -/
  | handlePi
  /-- Handler `h.handleEchoIP`. -/
  | handleEchoIP
  /-- Handler `h.handleHelp`. -/
  | handleHelp
  /-- Handler `h.handleDefault`. -/
  | handleDefault
  deriving DecidableEq, Repr

/-- The dispatch table `mux.z`, a Go map from canonical zone name to handler. -/
abbrev Mux := List (String × Handler)

/-- Number of backslashes at the head of a list. -/
def leadingBackslashes : List Char → Nat
  | [] => 0
  | c :: rest => if c = '\\' then leadingBackslashes rest + 1 else 0

/-- Function `dns.IsFqdn`: the name ends in a dot that is not escaped. -/
def IsFqdn (s : List Char) : Bool :=
  match s.reverse with
  | [] => false
  | c :: r => c = '.' && leadingBackslashes r % 2 = 0

/-- Function `dns.CanonicalName`: the fully qualified name in lower case. -/
def CanonicalName (s : String) : String :=
  let fq := if IsFqdn s.data then s.data else s.data ++ ['.']
  String.mk (fq.map Char.toLower)

/-- Map assignment `z[key] = h`. -/
def muxSet : Mux → String → Handler → Mux
  | [], key, h => [(key, h)]
  | (k, v) :: rest, key, h => if k = key then (k, h) :: rest else (k, v) :: muxSet rest key h

/-- Map lookup `z[key]`. -/
def muxGet (z : Mux) (key : String) : Option Handler :=
  z.lookup key

/-- The suffixes of a name that `NextLabel` steps to: those that start after a dot
which is neither escaped nor the last character.  `esc` tells whether the characters
read so far end in an odd number of backslashes. -/
def labelSuffixes : Bool → List Char → List (List Char)
  | _, [] => []
  | _, [_] => []
  | esc, c :: d :: rest =>
    if c = '.' && !esc then (d :: rest) :: labelSuffixes false (d :: rest)
    else labelSuffixes (c = '\\' && !esc) (d :: rest)

/-- Query type `dns.TypeDS`. -/
def TypeDS : Nat := 43

/-- The loop of `ServeMux.match` over the candidate zones, most specific first: a zone
that is bound is returned at once, except for a `DS` query, which goes on to look for
a parent and remembers the zone found. -/
def matchLoop (z : Mux) (t : Nat) : List (List Char) → Option Handler → Sum Handler (Option Handler)
  | [], handler => .inr handler
  | c :: rest, handler =>
    match muxGet z (String.mk c) with
    | some h => if t ≠ TypeDS then .inl h else matchLoop z t rest (some h)
    | none => matchLoop z t rest handler

/-- Method `ServeMux.match(q, t)`: the handler for the query name `q` of type `t`. -/
def muxMatch (z : Mux) (q : String) (t : Nat) : Option Handler :=
  let cq := (CanonicalName q).data
  match matchLoop z t (cq :: labelSuffixes false cq) none with
  | .inl h => some h
  | .inr handler =>
    match muxGet z "." with
    | some h => some h
    | none => handler

/-! ## Startup: `loadSnapshot`, `register` and `main` -/

/-- A parsed resource record (`dns.RR`), kept abstract. -/
structure RR where
  /-- The record as the library renders it. -/
  rendered : String
  deriving DecidableEq, Repr

/-- The collaborators of `main` outside this file: the service constructors, the
`Load` method of the currency service, read faults of the disk and `dns.NewRR`. -/
structure Env where
  /-- Constructor `random.New()`. -/
  randomNew : Service
  /-- Constructor `dice.New()`. -/
  diceNew : Service
  /-- Constructor `fx.New(fx.Opt)` for a refresh interval. -/
  fxNew : Int → Service
  /-- Method `f.Load(b)`: the service afterwards and the error returned. -/
  fxLoad : Service → Bytes → Service × Option String
  /-- Constructor `dict.New(dict.Opt)` for a path and a number of results. -/
  dictNew : String → Int → Service
  /-- Faults of `os.ReadFile`, per path. -/
  readFault : String → Option ReadError
  /-- Function `dns.NewRR(text)`. -/
  newRR : String → Except String RR

/-- The state of `main`: the fields of `h`, the router, the local `help` and the world. -/
structure St where
  /-- Field `h.services`. -/
  services : Registry
  /-- Field `h.domain`. -/
  domain : String
  /-- Field `h.help`. -/
  helpRRs : List RR
  /-- The router `mux`. -/
  mux : Mux
  /-- The local `help`: description and example template per enabled service. -/
  help : List (String × String)
  /-- The disk and the trace. -/
  world : World

/-- Append one call to the trace of a startup state. -/
def St.emit (st : St) (e : Event) : St :=
  { st with world := st.world.emit e }

/-- Function `loadSnapshot(service)`: the bytes read, or `none` for `nil`. -/
def loadSnapshot (ko : Koanf) (env : Env) (service : String) (w : World) :
    Except (Fatal × World) (Option Bytes × World) :=
  if !ko.bool (service ++ ".snapshot_enabled") then .ok (none, w)
  else
    match MustString ko (service ++ ".snapshot_file") with
    | none => .error (.mustString (service ++ ".snapshot_file"), w)
    | some filePath =>
      let w1 := w.emit (.readFile filePath)
      match ReadFile env.readFault w.fs filePath with
      | .error (.pathError _) => .ok (none, w1)
      | .error (.other msg) =>
        .ok (none, w1.emit (.logf "error reading snapshot file %s: %v" [filePath, msg]))
      | .ok b => .ok (some b, w1)

/-- Method `mux.HandleFunc(pattern, f)`: panics on an empty pattern, else assigns the
handler to the canonical name of the pattern. -/
def HandleFunc (st : St) (pattern : String) (h : Handler) : Run St :=
  let st1 := st.emit (.handleFunc pattern)
  if pattern = "" then .error (.invalidPattern, st1)
  else .ok { st1 with mux := muxSet st1.mux (CanonicalName pattern) h }

/-- Modelled from the spec: the method `h.register(name, s, mux)` of `handlers`, which
is not in `main.go`.  It binds the service under `name`, derives the zone label
`name + "."` and wires the service's handler into the router for that label; it fails,
fatally, if `name` is already registered or the router already owns the label. -/
def register (st : St) (name : String) (s : Service) : Run St :=
  let st1 := st.emit (.register name)
  if st1.services.any (fun e => e.1 = name)
      || st1.mux.any (fun e => e.1 = CanonicalName (name ++ ".")) then
    .error (.duplicate name, st1)
  else HandleFunc { st1 with services := st1.services ++ [(name, s)] } (name ++ ".")
    (.service name)

/-- Statement `help = append(help, []string{description, template})`. -/
def St.addHelp (st : St) (description template : String) : St :=
  { st with help := st.help ++ [(description, template)] }

/-- The declarations at the head of `main`: `h`, `mux` and `help`. -/
def initBlock (ko : Koanf) (w : World) : Run St :=
  match MustString ko "server.domain" with
  | none =>
    .error (.mustString "server.domain",
      { services := [], domain := "", helpRRs := [], mux := [], help := [], world := w })
  | some d =>
    .ok { services := [], domain := d, helpRRs := [], mux := [], help := [], world := w }

/-- Block "Random number generator" of `main`; the call `rand.Seed` touches nothing
of the state kept here. -/
def randBlock (ko : Koanf) (env : Env) (st : St) : Run St :=
  if ko.bool "rand.enabled" then
    match register st "rand" env.randomNew with
    | .error x => .error x
    | .ok st1 => .ok (st1.addHelp "generate random numbers" "dig @%s -p %s 1-100.rand ")
  else .ok st

/-- Block "PI" of `main`. -/
def piBlock (ko : Koanf) (st : St) : Run St :=
  if ko.bool "pi.enabled" then
    match HandleFunc st "pi." .handlePi with
    | .error x => .error x
    | .ok st1 =>
      .ok (st1.addHelp "return digits of Pi as TXT or A or AAAA record." "dig @%s -p @%s pi ")
  else .ok st

/-- Block "Rolling dice" of `main`. -/
def diceBlock (ko : Koanf) (env : Env) (st : St) : Run St :=
  if ko.bool "dice.enabled" then
    match register st "dice" env.diceNew with
    | .error x => .error x
    | .ok st1 => .ok (st1.addHelp "roll dice" "dig @%s -p %s 1d6.dice ")
  else .ok st

/-- Block "FX currency conversion" of `main`. -/
def fxBlock (ko : Koanf) (env : Env) (st : St) : Run St :=
  if ko.bool "fx.enabled" then
    match MustDuration ko "fx.refresh_interval" with
    | none => .error (.mustDuration "fx.refresh_interval", st)
    | some d =>
      let f := env.fxNew d
      match loadSnapshot ko env "fx" st.world with
      | .error (x, w1) => .error (x, { st with world := w1 })
      | .ok (none, w1) =>
        match register { st with world := w1 } "fx" f with
        | .error x => .error x
        | .ok st1 => .ok (st1.addHelp "convert currency rates" "dig %s -p %s 99USD-INR.fx ")
      | .ok (some b, w1) =>
        let r := env.fxLoad f b
        let w2 := w1.emit (.load "fx" b)
        let w3 :=
          match r.2 with
          | some err => w2.emit (.logf "error reading fx snapshot: %v" [err])
          | none => w2
        match register { st with world := w3 } "fx" r.1 with
        | .error x => .error x
        | .ok st1 => .ok (st1.addHelp "convert currency rates" "dig %s -p %s 99USD-INR.fx ")
  else .ok st

/-- Block "Dictionary" of `main`. -/
def dictBlock (ko : Koanf) (env : Env) (st : St) : Run St :=
  if ko.bool "dict.enabled" then
    match MustString ko "dict.wordnet_path" with
    | none => .error (.mustString "dict.wordnet_path", st)
    | some path =>
      match MustInt ko "dict.max_results" with
      | none => .error (.mustInt "dict.max_results", st)
      | some k =>
        match register st "dict" (env.dictNew path k) with
        | .error x => .error x
        | .ok st1 =>
          .ok (st1.addHelp "get the definition of an English word, powered by WordNet(R)."
            "dig @%s -p %s fun.dict")
  else .ok st

/-- Block "IP echo" of `main`. -/
def ipBlock (ko : Koanf) (st : St) : Run St :=
  if ko.bool "ip.enabled" then
    match HandleFunc st "ip." .handleEchoIP with
    | .error x => .error x
    | .ok st1 => .ok (st1.addHelp "get your host's requesting IP." "dig @%s -p %s ip")
  else .ok st

/-- The text `main` hands to `dns.NewRR` for one entry `l` of `help`. -/
def helpText (domain port : String) (l : String × String) : Option String :=
  match Sprintf l.2 [.str domain, .str port] with
  | none => none
  | some query =>
    Sprintf "help. %d TXT \"%s\" \"%s\"" [.int HELP_TTL, .str l.1, .str query]

/-- The loop `for _, l := range help` of `main`. -/
def helpLoop (env : Env) (port : String) : List (String × String) → St → Run St
  | [], st => .ok st
  | l :: rest, st =>
    match helpText st.domain port l with
    | none => .error (.badFormat l.2, st)
    | some text =>
      let st1 := st.emit (.newRR text)
      match env.newRR text with
      | .error err => .error (.errorPreparing err, st1)
      | .ok r => helpLoop env port rest { st1 with helpRRs := st1.helpRRs ++ [r] }

/-- Block "Get the Port" and "Prepare the static help response" of `main`. -/
def helpBlock (ko : Koanf) (env : Env) (st : St) : Run St :=
  match MustString ko "server.address" with
  | none => .error (.mustString "server.address", st)
  | some address => helpLoop env (portOf address) st.help st

/-- Function `main`, from the declarations at its head up to the point where the
snapshot listener and the server are started, on the disk `fs` and with an empty
trace. -/
def main (ko : Koanf) (env : Env) (fs : FS) : Except (Fatal × St) St :=
  initBlock ko { fs := fs, events := [] } >>= randBlock ko env >>= piBlock ko >>= diceBlock ko env
    >>= fxBlock ko env >>= dictBlock ko env >>= ipBlock ko >>= helpBlock ko env
    >>= (fun st => HandleFunc st "help." .handleHelp)
    >>= (fun st => HandleFunc st "." .handleDefault)

/-- The state a run reached, whether it completed or not. -/
def reached {σ : Type} (r : Run σ) : σ :=
  match r with
  | .ok st => st
  | .error x => x.2

/-! ## Vocabulary for statements about startup -/

/-- The state after a successful `mux.HandleFunc(pattern, f)`. -/
def St.bound (st : St) (pattern : String) (h : Handler) : St :=
  { st with
    mux := muxSet st.mux (CanonicalName pattern) h
    world := st.world.emit (.handleFunc pattern) }

/-- The state after a successful `h.register(name, s, mux)`. -/
def St.registered (st : St) (name : String) (s : Service) : St :=
  { st with
    services := st.services ++ [(name, s)]
    mux := muxSet st.mux (CanonicalName (name ++ ".")) (.service name)
    world := (st.world.emit (.register name)).emit (.handleFunc (name ++ ".")) }

/-- The currency service `main` registers and the calls made to restore it, for a
refresh interval `d`, when `loadSnapshot` does not panic. -/
def fxRestore (ko : Koanf) (env : Env) (fs : FS) (d : Int) : Service × List Event :=
  if ko.bool "fx.snapshot_enabled" then
    match ReadFile env.readFault fs (ko.string "fx.snapshot_file") with
    | .error (.pathError _) => (env.fxNew d, [Event.readFile (ko.string "fx.snapshot_file")])
    | .error (.other msg) =>
      (env.fxNew d,
        [Event.readFile (ko.string "fx.snapshot_file"),
         Event.logf "error reading snapshot file %s: %v" [ko.string "fx.snapshot_file", msg]])
    | .ok b =>
      ((env.fxLoad (env.fxNew d) b).1,
        [Event.readFile (ko.string "fx.snapshot_file"), Event.load "fx" b]
          ++ (match (env.fxLoad (env.fxNew d) b).2 with
              | some err => [Event.logf "error reading fx snapshot: %v" [err]]
              | none => []))
  else (env.fxNew d, [])

/-- The state in which `main` starts its blocks. -/
def St.init (ko : Koanf) (fs : FS) : St where
  services := []
  domain := ko.string "server.domain"
  helpRRs := []
  mux := []
  help := []
  world := { fs := fs, events := [] }

/-- The state with the calls `evs` added to the trace. -/
def St.restored (st : St) (evs : List Event) : St :=
  { st with world := { fs := st.world.fs, events := st.world.events ++ evs } }

/-- The state after the block of `rand`, when it completes. -/
def randDone (ko : Koanf) (env : Env) (st : St) : St :=
  if ko.bool "rand.enabled" then
    (st.registered "rand" env.randomNew).addHelp "generate random numbers"
      "dig @%s -p %s 1-100.rand "
  else st

/-- The state after the block of `pi`, when it completes. -/
def piDone (ko : Koanf) (st : St) : St :=
  if ko.bool "pi.enabled" then
    (st.bound "pi." .handlePi).addHelp "return digits of Pi as TXT or A or AAAA record."
      "dig @%s -p @%s pi "
  else st

/-- The state after the block of `dice`, when it completes. -/
def diceDone (ko : Koanf) (env : Env) (st : St) : St :=
  if ko.bool "dice.enabled" then
    (st.registered "dice" env.diceNew).addHelp "roll dice" "dig @%s -p %s 1d6.dice "
  else st

/-- The state after the block of `fx`, when it completes. -/
def fxDone (ko : Koanf) (env : Env) (st : St) : St :=
  if ko.bool "fx.enabled" then
    ((st.restored (fxRestore ko env st.world.fs (ko.duration "fx.refresh_interval")).2).registered
        "fx" (fxRestore ko env st.world.fs (ko.duration "fx.refresh_interval")).1).addHelp
      "convert currency rates" "dig %s -p %s 99USD-INR.fx "
  else st

/-- The state after the block of `dict`, when it completes. -/
def dictDone (ko : Koanf) (env : Env) (st : St) : St :=
  if ko.bool "dict.enabled" then
    (st.registered "dict"
        (env.dictNew (ko.string "dict.wordnet_path") (ko.int "dict.max_results"))).addHelp
      "get the definition of an English word, powered by WordNet(R)."
      "dig @%s -p %s fun.dict"
  else st

/-- The state after the block of `ip`, when it completes. -/
def ipDone (ko : Koanf) (st : St) : St :=
  if ko.bool "ip.enabled" then
    (st.bound "ip." .handleEchoIP).addHelp "get your host's requesting IP." "dig @%s -p %s ip"
  else st

/-- The panic that stops the block of `fx`, if any. -/
def fxFailure (ko : Koanf) : Option Fatal :=
  if ko.bool "fx.enabled" then
    if ko.duration "fx.refresh_interval" = 0 then some (.mustDuration "fx.refresh_interval")
    else if ko.bool "fx.snapshot_enabled" ∧ ko.string "fx.snapshot_file" = "" then
      some (.mustString "fx.snapshot_file")
    else none
  else none

/-- The panic that stops the block of `dict`, if any. -/
def dictFailure (ko : Koanf) : Option Fatal :=
  if ko.bool "dict.enabled" then
    if ko.string "dict.wordnet_path" = "" then some (.mustString "dict.wordnet_path")
    else if ko.int "dict.max_results" = 0 then some (.mustInt "dict.max_results")
    else none
  else none

/-- The state after the six service blocks, when they complete. -/
def prepared (ko : Koanf) (env : Env) (fs : FS) : St :=
  ipDone ko (dictDone ko env (fxDone ko env
    (diceDone ko env (piDone ko (randDone ko env (St.init ko fs))))))

/-- The run of `main` with the checks of `register` and `HandleFunc` resolved: the
blocks either complete or stop at one of the `Must` getters or at `dns.NewRR`. -/
def startup (ko : Koanf) (env : Env) (fs : FS) : Run St :=
  if ko.string "server.domain" = "" then .error (.mustString "server.domain", St.init ko fs)
  else
    match fxFailure ko with
    | some f => .error (f, diceDone ko env (piDone ko (randDone ko env (St.init ko fs))))
    | none =>
      match dictFailure ko with
      | some f =>
        .error (f, fxDone ko env (diceDone ko env (piDone ko (randDone ko env (St.init ko fs)))))
      | none =>
        if ko.string "server.address" = "" then
          .error (.mustString "server.address",
            prepared ko env fs)
        else
          match helpLoop env (portOf (ko.string "server.address"))
              (prepared ko env fs).help
              (prepared ko env fs) with
          | .error x => .error x
          | .ok st => .ok ((st.bound "help." .handleHelp).bound "." .handleDefault)

/-- The services `main` knows, in the order of its blocks. -/
inductive Svc
  | rand | pi | dice | fx | dict | ip
  deriving DecidableEq, Repr

/-- The configuration name of a service. -/
def Svc.name : Svc → String
  | .rand => "rand" | .pi => "pi" | .dice => "dice" | .fx => "fx" | .dict => "dict" | .ip => "ip"

/-- The description of a service in its help record. -/
def Svc.description : Svc → String
  | .rand => "generate random numbers"
  | .pi => "return digits of Pi as TXT or A or AAAA record."
  | .dice => "roll dice"
  | .fx => "convert currency rates"
  | .dict => "get the definition of an English word, powered by WordNet(R)."
  | .ip => "get your host's requesting IP."

/-- The example-query template of a service, as `main` appends it to `help`. -/
def Svc.format : Svc → String
  | .rand => "dig @%s -p %s 1-100.rand "
  | .pi => "dig @%s -p @%s pi "
  | .dice => "dig @%s -p %s 1d6.dice "
  | .fx => "dig %s -p %s 99USD-INR.fx "
  | .dict => "dig @%s -p %s fun.dict"
  | .ip => "dig @%s -p %s ip"

/-- The handler `main` binds for a service. -/
def Svc.handler : Svc → Handler
  | .pi => .handlePi
  | .ip => .handleEchoIP
  | s => .service s.name

/-- The example-query template of a service, cut at its two placeholders `%s`: the
text before the first, between the two, and after the second. -/
def Svc.template : Svc → String × String × String
  | .rand => ("dig @", " -p ", " 1-100.rand ")
  | .pi => ("dig @", " -p @", " pi ")
  | .dice => ("dig @", " -p ", " 1d6.dice ")
  | .fx => ("dig ", " -p ", " 99USD-INR.fx ")
  | .dict => ("dig @", " -p ", " fun.dict")
  | .ip => ("dig @", " -p ", " ip")

/-- The six services in the fixed order of `main`. -/
def allSvcs : List Svc := [.rand, .pi, .dice, .fx, .dict, .ip]

/-- The services whose `enabled` flag is set, in the fixed order. -/
def enabledSvcs (ko : Koanf) : List Svc :=
  allSvcs.filter (fun s => ko.bool (s.name ++ ".enabled"))

/-- The help record text of the spec for a service: the description, and the template
with the first placeholder replaced by `address` and the second by `port`. -/
def recordText (address port : String) (s : Svc) : String :=
  "help. 86400 TXT \"" ++ s.description ++ "\" \""
    ++ s.template.1 ++ address ++ s.template.2.1 ++ port ++ s.template.2.2 ++ "\""

/-- The patterns of the `mux.HandleFunc` calls in a trace, in order. -/
def boundPatterns (evs : List Event) : List String :=
  evs.filterMap (fun ev => match ev with
    | .handleFunc p => some p
    | _ => none)

/-- A name lies under a zone when it is the zone or ends in a dot followed by it. -/
def Under (q zone : List Char) : Prop :=
  q = zone ∨ List.IsSuffix ('.' :: zone) q

instance (q zone : List Char) : Decidable (Under q zone) :=
  inferInstanceAs (Decidable (q = zone ∨ List.IsSuffix ('.' :: zone) q))

/-! ## Vocabulary for statements about a sweep -/

/-- The guard of the sweep: the entry `name` is dumped when both `name.enabled` and
`name.snapshot_enabled` are set. -/
def active (ko : Koanf) (name : String) : Bool :=
  ko.bool (name ++ ".enabled") && ko.bool (name ++ ".snapshot_enabled")

/-- The configured snapshot path of the entry `name`. -/
def snapshotFile (ko : Koanf) (name : String) : String :=
  ko.string (name ++ ".snapshot_file")

/-- The registry entry on whose behalf a call is made, for `Dump` and `os.WriteFile`. -/
def Event.entry : Event → Option String
  | .dump name => some name
  | .writeFile name _ _ => some name
  | _ => none

/-- The `Dump` and `os.WriteFile` calls made for the entry `name`, in order. -/
def callsFor (name : String) (evs : List Event) : List Event :=
  evs.filter (fun ev => ev.entry = some name)

/-- No entry of `reg` that reaches the write lacks a snapshot path in sweep `n`. -/
def Configured (ko : Koanf) (n : Nat) (reg : Registry) : Prop :=
  ∀ e ∈ reg, active ko e.1 = true → (e.2.Dump n).data ≠ none → snapshotFile ko e.1 ≠ ""

/-- The calls one entry adds to the trace when its loop body completes. -/
def entryEvents (ko : Koanf) (wr : WriteOracle) (n : Nat) (e : String × Service) :
    List Event :=
  if active ko e.1 then
    [Event.dump e.1]
      ++ (match (e.2.Dump n).err with
          | some err => [Event.logf "error generating %s snapshot: %v" [e.1, err]]
          | none => [])
      ++ (match (e.2.Dump n).data with
          | none => []
          | some b =>
            [Event.logf "saving %s snapshot to %s" [e.1, snapshotFile ko e.1],
             Event.writeFile e.1 (snapshotFile ko e.1) b]
              ++ (match wr n e.1 with
                  | .ok => []
                  | .failed err _ => [Event.logf "error writing %s snapshot: %v" [e.1, err]]))
  else []

/-- The disk after one entry's loop body completes. -/
def entryFS (ko : Koanf) (wr : WriteOracle) (n : Nat) (fs : FS) (e : String × Service) : FS :=
  if active ko e.1 then
    match (e.2.Dump n).data with
    | none => fs
    | some b => (WriteFile (wr n e.1) fs (snapshotFile ko e.1) b).1
  else fs

/-- The trace of the state a run reached, whether it completed or not. -/
def traceOf (r : Run World) : List Event :=
  match r with
  | .ok w => w.events
  | .error x => x.2.events

/-- The failure that stopped a run, if any. -/
def failureOf {σ : Type} (r : Run σ) : Option Fatal :=
  match r with
  | .ok _ => none
  | .error x => some x.1

/-- Whether the process was terminated by `os.Exit`. -/
def Proc.hasExited : Proc → Bool
  | .exited _ _ => true
  | _ => false

/-- Whether the process is blocked on the signal channel again. -/
def Proc.isListening : Proc → Bool
  | .listening _ _ => true
  | _ => false

/-- The panic that terminated the process, if any. -/
def Proc.crash : Proc → Option Fatal
  | .crashed f _ => some f
  | _ => none

/-- The registered names lie in `N` and the bound zones in `L`. -/
def Fresh (N L : List String) (st : St) : Prop :=
  (∀ n ∈ st.services.map Prod.fst, n ∈ N) ∧ (∀ k ∈ st.mux.map Prod.fst, k ∈ L)

/-- The fields of a startup state that a block extends: the router, the help table,
the registry and the trace. -/
def St.Extends (st1 st : St) (mux : Mux) (help : List (String × String)) (svcs : Registry)
    (evs : List Event) : Prop :=
  st1.mux = st.mux ++ mux ∧ st1.help = st.help ++ help ∧ st1.services = st.services ++ svcs
    ∧ st1.world.events = st.world.events ++ evs ∧ st1.domain = st.domain
    ∧ st1.helpRRs = st.helpRRs ∧ st1.world.fs = st.world.fs

/-- What one service contributes to the startup state when its block completes. -/
def contribution (ko : Koanf) (env : Env) (fs : FS) :
    Svc → Mux × List (String × String) × Registry × List Event
  | .rand => ([("rand.", .service "rand")], [(Svc.rand.description, Svc.rand.format)],
      [("rand", env.randomNew)], [.register "rand", .handleFunc "rand."])
  | .pi => ([("pi.", .handlePi)], [(Svc.pi.description, Svc.pi.format)], [],
      [.handleFunc "pi."])
  | .dice => ([("dice.", .service "dice")], [(Svc.dice.description, Svc.dice.format)],
      [("dice", env.diceNew)], [.register "dice", .handleFunc "dice."])
  | .fx => ([("fx.", .service "fx")], [(Svc.fx.description, Svc.fx.format)],
      [("fx", (fxRestore ko env fs (ko.duration "fx.refresh_interval")).1)],
      (fxRestore ko env fs (ko.duration "fx.refresh_interval")).2
        ++ [.register "fx", .handleFunc "fx."])
  | .dict => ([("dict.", .service "dict")], [(Svc.dict.description, Svc.dict.format)],
      [("dict", env.dictNew (ko.string "dict.wordnet_path") (ko.int "dict.max_results"))],
      [.register "dict", .handleFunc "dict."])
  | .ip => ([("ip.", .handleEchoIP)], [(Svc.ip.description, Svc.ip.format)], [],
      [.handleFunc "ip."])

/-- The contributions of a list of services, in order. -/
def contributions (ko : Koanf) (env : Env) (fs : FS) (l : List Svc) :
    Mux × List (String × String) × Registry × List Event :=
  (l.flatMap (fun s => (contribution ko env fs s).1),
   l.flatMap (fun s => (contribution ko env fs s).2.1),
   l.flatMap (fun s => (contribution ko env fs s).2.2.1),
   l.flatMap (fun s => (contribution ko env fs s).2.2.2))

/-- The texts handed to `dns.NewRR` in a trace, in order. -/
def newRRTexts (evs : List Event) : List String :=
  evs.filterMap (fun ev => match ev with
    | .newRR t => some t
    | _ => none)

/-- The services that `main` puts in the registry. -/
def Svc.inRegistry : Svc → Bool
  | .rand => true | .dice => true | .fx => true | .dict => true
  | _ => false

/-- The restore calls in a trace: the `os.ReadFile` and `Load` calls, in order. -/
def restoreCalls (evs : List Event) : List Event :=
  evs.filter (fun ev => match ev with
    | .readFile _ => true
    | .load _ _ => true
    | _ => false)

/-! ## Concrete inputs -/

/-- A configuration store given by the keys that are `true`, the string values, the
integer values and the durations that are set. -/
def koOf (flags : List String) (strs : List (String × String))
    (ints : List (String × Int)) (durs : List (String × Int)) : Koanf where
  bool := fun k => flags.contains k
  string := fun k => (strs.lookup k).getD ""
  int := fun k => (ints.lookup k).getD 0
  duration := fun k => (durs.lookup k).getD 0

/-- A service whose `Dump` always returns `d`. -/
def constService (d : DumpResult) : Service where
  state := []
  Dump := fun _ => d

/-- An empty disk and an empty trace. -/
def emptyWorld : World where
  fs := fun _ => none
  events := []

/-- A write oracle under which every write succeeds. -/
def allWritesOk : WriteOracle := fun _ _ => WriteOutcome.ok

/-- Only `fx.snapshot_enabled` is set: `fx.enabled` is not. -/
def koFxDisabled : Koanf :=
  koOf ["fx.snapshot_enabled"] [("fx.snapshot_file", "fx.snap")] [] []

/-- Services `dict` and `fx` are enabled with snapshots; `dict.snapshot_file` is not
set. -/
def koDictNoFile : Koanf :=
  koOf ["dict.enabled", "dict.snapshot_enabled", "fx.enabled", "fx.snapshot_enabled"]
    [("fx.snapshot_file", "fx.snap")] [] []

/-- Services `dict` and `fx` are enabled with snapshots, each with its own file. -/
def koBoth : Koanf :=
  koOf ["dict.enabled", "dict.snapshot_enabled", "fx.enabled", "fx.snapshot_enabled"]
    [("fx.snapshot_file", "fx.snap"), ("dict.snapshot_file", "dict.snap")] [] []

/-- A registry of `dict` and `fx`, visited in this order, both returning data. -/
def regDictFx : Registry :=
  [("dict", constService ⟨some [1], none⟩), ("fx", constService ⟨some [2, 3], none⟩)]

/-- A registry of `dict` and `fx` in which the `Dump` of `dict` fails with data. -/
def regDictFails : Registry :=
  [("dict", constService ⟨some [7], some "boom"⟩), ("fx", constService ⟨some [2, 3], none⟩)]

/-- Services `pi` and `fx` are enabled, `fx` with a snapshot in `fx.snap`; the server
listens on `:5354` for the domain `dns.example`. -/
def koDemo : Koanf :=
  koOf ["pi.enabled", "fx.enabled", "fx.snapshot_enabled"]
    [("server.domain", "dns.example"), ("server.address", ":5354"),
     ("fx.snapshot_file", "fx.snap")]
    [] [("fx.refresh_interval", 60)]

/-- Collaborators that never fail: `Load` stores the bytes as the state of the service
and `dns.NewRR` accepts every text. -/
def envDemo : Env where
  randomNew := constService ⟨none, none⟩
  diceNew := constService ⟨none, none⟩
  fxNew := fun _ => constService ⟨some [1], none⟩
  fxLoad := fun s b => ({ s with state := b }, none)
  dictNew := fun _ _ => constService ⟨none, none⟩
  readFault := fun _ => none
  newRR := fun t => .ok ⟨t⟩

/-- A disk that holds one file, `fx.snap`. -/
def fsDemo : FS := fun p => if p = "fx.snap" then some [4, 2] else none

/-- Service `dict` is enabled with a snapshot in `dict.snap`. -/
def koDictSnap : Koanf :=
  koOf ["dict.enabled", "dict.snapshot_enabled"]
    [("server.domain", "dns.example"), ("server.address", ":5354"),
     ("dict.snapshot_file", "dict.snap"), ("dict.wordnet_path", "/wn")]
    [("dict.max_results", 5)] []

/-- A disk that holds one file, `dict.snap`. -/
def fsDict : FS := fun p => if p = "dict.snap" then some [9] else none

/-- Collaborators under which every read fails with an input/output error. -/
def envReadFails : Env :=
  { envDemo with readFault := fun _ => some (.other "input/output error") }

/-- Collaborators under which `Load` fails and leaves the service as it was. -/
def envLoadFails : Env :=
  { envDemo with fxLoad := fun s _ => (s, some "bad snapshot") }

/-- The disk of the state a run reached, whether it completed or not. -/
def diskOf (r : Run World) : FS :=
  match r with
  | .ok w => w.fs
  | .error x => x.2.fs

/-- Services `dict` and `fx` are enabled with snapshots and share one snapshot file. -/
def koShared : Koanf :=
  koOf ["dict.enabled", "dict.snapshot_enabled", "fx.enabled", "fx.snapshot_enabled"]
    [("fx.snapshot_file", "shared.snap"), ("dict.snapshot_file", "shared.snap")] [] []

/-- A registry of `fx` and `dict` in which the `Dump` of `fx` returns `nil`. -/
def regFxNil : Registry :=
  [("fx", constService ⟨none, none⟩), ("dict", constService ⟨some [1], none⟩)]

/-- A disk that holds one file, `shared.snap`, and an empty trace. -/
def worldShared : World where
  fs := fun p => if p = "shared.snap" then some [0] else none
  events := []

end DnsAbuse

namespace DnsAbuse

/-! ## The sweep: auxiliary facts -/

theorem sweepEntry_ok (ko : Koanf) (wr : WriteOracle) (n : Nat) (e : String × Service)
    (w : World)
    (h : active ko e.1 = true → (e.2.Dump n).data ≠ none → snapshotFile ko e.1 ≠ "") :
    sweepEntry ko wr n e w
      = .ok { fs := entryFS ko wr n w.fs e, events := w.events ++ entryEvents ko wr n e } := by
  unfold sweepEntry entryFS entryEvents
  by_cases ha : active ko e.1 = true
  · have ha1 : ko.bool (e.1 ++ ".enabled") = true ∧ ko.bool (e.1 ++ ".snapshot_enabled") = true := by
      simpa [active] using ha
    simp only [ha, ha1.1, ha1.2, Bool.not_true, Bool.or_self, Bool.false_eq_true, if_false,
      if_true]
    cases hd : (e.2.Dump n).data with
    | none =>
      cases he : (e.2.Dump n).err <;> simp [World.emit]
    | some b =>
      have hs : snapshotFile ko e.1 ≠ "" := h ha (by simp [hd])
      have hm : MustString ko (e.1 ++ ".snapshot_file") = some (snapshotFile ko e.1) := by
        unfold MustString; unfold snapshotFile at hs; simp [hs, snapshotFile]
      simp only [hm]
      cases he : (e.2.Dump n).err <;> cases ho : wr n e.1 <;> simp [World.emit, WriteFile]
  · have ha0 : active ko e.1 = false := by simpa using ha
    have hg : (!ko.bool (e.1 ++ ".enabled") || !ko.bool (e.1 ++ ".snapshot_enabled")) = true := by
      unfold active at ha0
      cases h1 : ko.bool (e.1 ++ ".enabled") <;> cases h2 : ko.bool (e.1 ++ ".snapshot_enabled")
        <;> simp_all
    simp [hg, ha0]

theorem configured_cons {ko : Koanf} {n : Nat} {e : String × Service} {reg : Registry}
    (h : Configured ko n (e :: reg)) :
    (active ko e.1 = true → (e.2.Dump n).data ≠ none → snapshotFile ko e.1 ≠ "")
      ∧ Configured ko n reg :=
  ⟨h e (List.mem_cons_self _ _), fun e1 he1 => h e1 (List.mem_cons_of_mem _ he1)⟩

theorem sweep_ok (ko : Koanf) (wr : WriteOracle) (n : Nat) (reg : Registry) :
    ∀ w : World, Configured ko n reg →
      sweep ko wr n reg w
        = .ok { fs := reg.foldl (entryFS ko wr n) w.fs,
                events := w.events ++ reg.flatMap (entryEvents ko wr n) } := by
  induction reg with
  | nil => intro w _; simp [sweep]
  | cons e rest ih =>
    intro w h
    obtain ⟨h1, h2⟩ := configured_cons h
    simp only [sweep, sweepEntry_ok ko wr n e w h1, ih _ h2, List.foldl_cons,
      List.flatMap_cons, List.append_assoc]

theorem callsFor_append (name : String) (a b : List Event) :
    callsFor name (a ++ b) = callsFor name a ++ callsFor name b := by
  simp [callsFor]

theorem callsFor_entry_other (ko : Koanf) (wr : WriteOracle) (n : Nat) (e : String × Service)
    (name : String) (h : e.1 ≠ name) : callsFor name (entryEvents ko wr n e) = [] := by
  unfold entryEvents callsFor
  by_cases ha : active ko e.1 = true
  · simp only [ha, if_true]
    cases (e.2.Dump n).err <;> cases (e.2.Dump n).data <;> cases wr n e.1 <;>
      simp [Event.entry, h]
  · simp [ha]

theorem callsFor_flatMap_other (ko : Koanf) (wr : WriteOracle) (n : Nat) (name : String) :
    ∀ reg : Registry, (∀ e ∈ reg, e.1 ≠ name) →
      callsFor name (reg.flatMap (entryEvents ko wr n)) = [] := by
  intro reg
  induction reg with
  | nil => intro _; simp [callsFor]
  | cons e rest ih =>
    intro h
    rw [List.flatMap_cons, callsFor_append,
      callsFor_entry_other ko wr n e name (h e (List.mem_cons_self _ _)),
      ih (fun e1 he1 => h e1 (List.mem_cons_of_mem _ he1))]
    rfl

theorem callsFor_entry_self (ko : Koanf) (wr : WriteOracle) (n : Nat) (name : String)
    (s : Service) :
    callsFor name (entryEvents ko wr n (name, s))
      = if active ko name then
          match (s.Dump n).data with
          | none => [Event.dump name]
          | some b => [Event.dump name, Event.writeFile name (snapshotFile ko name) b]
        else [] := by
  unfold entryEvents callsFor
  by_cases ha : active ko name = true
  · simp only [ha, if_true]
    cases (s.Dump n).err <;> cases (s.Dump n).data <;> cases wr n name <;>
      simp [Event.entry]
  · simp [ha]

/-- In a registry with distinct names, the entries around a given one have other names. -/
theorem split_of_mem {reg : Registry} {name : String} {s : Service}
    (hnd : (reg.map Prod.fst).Nodup) (hm : (name, s) ∈ reg) :
    ∃ pre post, reg = pre ++ (name, s) :: post
      ∧ (∀ e ∈ pre, e.1 ≠ name) ∧ (∀ e ∈ post, e.1 ≠ name) := by
  obtain ⟨pre, post, rfl⟩ := List.append_of_mem hm
  refine ⟨pre, post, rfl, ?_, ?_⟩
  · intro e he hen
    rw [List.map_append, List.map_cons, List.nodup_middle, List.nodup_cons] at hnd
    exact hnd.1 (List.mem_append_left _ (List.mem_map.mpr ⟨e, he, hen⟩))
  · intro e he hen
    rw [List.map_append, List.map_cons, List.nodup_middle, List.nodup_cons] at hnd
    exact hnd.1 (List.mem_append_right _ (List.mem_map.mpr ⟨e, he, hen⟩))

theorem callsFor_sweep (ko : Koanf) (wr : WriteOracle) (n : Nat) {reg : Registry}
    {name : String} {s : Service} (hnd : (reg.map Prod.fst).Nodup) (hm : (name, s) ∈ reg) :
    callsFor name (reg.flatMap (entryEvents ko wr n))
      = if active ko name then
          match (s.Dump n).data with
          | none => [Event.dump name]
          | some b => [Event.dump name, Event.writeFile name (snapshotFile ko name) b]
        else [] := by
  obtain ⟨pre, post, rfl, hpre, hpost⟩ := split_of_mem hnd hm
  rw [List.flatMap_append, List.flatMap_cons, callsFor_append, callsFor_append,
    callsFor_flatMap_other ko wr n name pre hpre, callsFor_flatMap_other ko wr n name post hpost,
    callsFor_entry_self]
  simp

theorem entryFS_other (ko : Koanf) (wr : WriteOracle) (n : Nat) (fs : FS) (e : String × Service)
    (p : String) (h : snapshotFile ko e.1 ≠ p) : entryFS ko wr n fs e p = fs p := by
  unfold entryFS
  have hp : ¬ p = snapshotFile ko e.1 := fun hh => h hh.symm
  by_cases ha : active ko e.1 = true
  · simp only [ha, if_true]
    cases (e.2.Dump n).data with
    | none => rfl
    | some b => cases wr n e.1 <;> simp [WriteFile, FS.set, hp]
  · simp [ha]

theorem foldl_entryFS_other (ko : Koanf) (wr : WriteOracle) (n : Nat) (p : String) :
    ∀ (reg : Registry) (fs : FS), (∀ e ∈ reg, snapshotFile ko e.1 ≠ p) →
      reg.foldl (entryFS ko wr n) fs p = fs p := by
  intro reg
  induction reg with
  | nil => intro fs _; rfl
  | cons e rest ih =>
    intro fs h
    rw [List.foldl_cons, ih _ (fun e1 he1 => h e1 (List.mem_cons_of_mem _ he1)),
      entryFS_other ko wr n fs e p (h e (List.mem_cons_self _ _))]

/-- The file of an entry after a sweep in which no other entry uses its path. -/
theorem fs_sweep (ko : Koanf) (wr : WriteOracle) (n : Nat) {reg : Registry}
    {name : String} {s : Service} (fs : FS) (hnd : (reg.map Prod.fst).Nodup)
    (hm : (name, s) ∈ reg)
    (hp : ∀ e ∈ reg, e.1 ≠ name → snapshotFile ko e.1 ≠ snapshotFile ko name) :
    reg.foldl (entryFS ko wr n) fs (snapshotFile ko name)
      = entryFS ko wr n fs (name, s) (snapshotFile ko name) := by
  obtain ⟨pre, post, rfl, hpre, hpost⟩ := split_of_mem hnd hm
  rw [List.foldl_append, List.foldl_cons]
  rw [foldl_entryFS_other ko wr n _ post _
    (fun e he => hp e (List.mem_append_right _ (List.mem_cons_of_mem _ he)) (hpost e he))]
  have h1 : List.foldl (entryFS ko wr n) fs pre (snapshotFile ko name)
      = fs (snapshotFile ko name) :=
    foldl_entryFS_other ko wr n _ pre fs
      (fun e he => hp e (List.mem_append_left _ he) (hpre e he))
  generalize List.foldl (entryFS ko wr n) fs pre = fs1 at h1 ⊢
  unfold entryFS
  by_cases ha : active ko name = true
  · simp only [ha, if_true]
    cases (s.Dump n).data with
    | none => exact h1
    | some b => cases wr n name <;> simp [WriteFile, FS.set]
  · simp [ha, h1]


theorem configured_of_files {ko : Koanf} {reg : Registry} (n : Nat)
    (h : ∀ e ∈ reg, ko.bool (e.1 ++ ".snapshot_enabled") = true → snapshotFile ko e.1 ≠ "") :
    Configured ko n reg := by
  intro e he ha _
  apply h e he
  unfold active at ha
  cases h2 : ko.bool (e.1 ++ ".snapshot_enabled") <;> simp_all

/-! ## The sweep: claims -/

/-- C1 as stated fails in two ways.  An entry whose `snapshot_enabled` is set while its
`enabled` flag is not is skipped: its `Dump` is never called.  And when an entry that
returned data has no `snapshot_file`, `MustString` panics in the middle of the sweep:
the entries after it are never dumped. -/
theorem sweep_skips_entries :
    koFxDisabled.bool "fx.snapshot_enabled" = true
      ∧ traceOf (sweep koFxDisabled allWritesOk 0
          [("fx", constService ⟨some [2, 3], none⟩)] emptyWorld) = []
      ∧ koDictNoFile.bool "fx.snapshot_enabled" = true
      ∧ failureOf (sweep koDictNoFile allWritesOk 0 regDictFx emptyWorld)
          = some (Fatal.mustString "dict.snapshot_file")
      ∧ traceOf (sweep koDictNoFile allWritesOk 0 regDictFx emptyWorld)
          = [Event.dump "dict"] := by
  decide

/-- C1, amended: in one sweep over a registry in which every entry that reaches the
write has a snapshot file configured, the sweep completes; for every entry with both
`enabled` and `snapshot_enabled` set, `Dump` is called exactly once, no file is
written when it returns no data, and when it returns `b` the one write made for the
entry puts `b` at the entry's `snapshot_file` path, which then holds exactly `b` if the
write succeeds and no other entry uses that path.  For an entry with `enabled` or
`snapshot_enabled` not set no call is made at all. -/
theorem sweep_dumps_each_active_entry_once (ko : Koanf) (wr : WriteOracle) (n : Nat)
    (reg : Registry) (w : World) (hnd : (reg.map Prod.fst).Nodup)
    (hcfg : Configured ko n reg) :
    ∃ w1 new, sweep ko wr n reg w = .ok w1 ∧ w1.events = w.events ++ new ∧
      ∀ name s, (name, s) ∈ reg →
        (active ko name = false → callsFor name new = []) ∧
        (active ko name = true → (s.Dump n).data = none →
          callsFor name new = [Event.dump name]) ∧
        (∀ b, active ko name = true → (s.Dump n).data = some b →
          callsFor name new
              = [Event.dump name, Event.writeFile name (snapshotFile ko name) b]
            ∧ (wr n name = WriteOutcome.ok →
                (∀ e ∈ reg, e.1 ≠ name → snapshotFile ko e.1 ≠ snapshotFile ko name) →
                w1.fs (snapshotFile ko name) = some b)) := by
  refine ⟨_, reg.flatMap (entryEvents ko wr n), sweep_ok ko wr n reg w hcfg, rfl, ?_⟩
  intro name s hm
  have hc := callsFor_sweep ko wr n hnd hm
  refine ⟨?_, ?_, ?_⟩
  · intro ha; rw [hc]; simp [ha]
  · intro ha hd; rw [hc]; simp [ha, hd]
  · intro b ha hd
    refine ⟨by rw [hc]; simp [ha, hd], ?_⟩
    intro hw hp
    show reg.foldl (entryFS ko wr n) w.fs (snapshotFile ko name) = some b
    rw [fs_sweep ko wr n w.fs hnd hm hp]
    simp [entryFS, ha, hd, hw, WriteFile, FS.set]

theorem sweep_dumps_each_active_entry_once_witness :
    ∃ w1 new, sweep koBoth allWritesOk 0 regDictFails emptyWorld = .ok w1
      ∧ w1.events = emptyWorld.events ++ new ∧
      ∀ name s, (name, s) ∈ regDictFails →
        (active koBoth name = false → callsFor name new = []) ∧
        (active koBoth name = true → (s.Dump 0).data = none →
          callsFor name new = [Event.dump name]) ∧
        (∀ b, active koBoth name = true → (s.Dump 0).data = some b →
          callsFor name new
              = [Event.dump name, Event.writeFile name (snapshotFile koBoth name) b]
            ∧ (allWritesOk 0 name = WriteOutcome.ok →
                (∀ e ∈ regDictFails, e.1 ≠ name →
                  snapshotFile koBoth e.1 ≠ snapshotFile koBoth name) →
                w1.fs (snapshotFile koBoth name) = some b)) :=
  sweep_dumps_each_active_entry_once koBoth allWritesOk 0 regDictFails emptyWorld
    (by decide)
    (by
      intro e he _ _
      simp only [regDictFails, List.mem_cons, List.mem_singleton, List.not_mem_nil,
        or_false] at he
      rcases he with rfl | rfl <;> decide)


/-- C2: in a registry (names distinct, as in a Go map) in which each snapshot-enabled
entry has a `snapshot_file` configured, a sweep runs to its end whatever `Dump` and
the writes return; and the calls made for an entry (whether its `Dump` is called, and
what is written to which path) are the same in any two sweeps in which that entry's
`Dump` returns the same bytes, however the errors and results of `Dump` and of the
writes differ for the other entries, and whatever the order of the visit. -/
theorem sweep_errors_do_not_block (ko : Koanf) (wrA wrB : WriteOracle) (nA nB : Nat)
    (regA regB : Registry) (wA wB : World)
    (hndA : (regA.map Prod.fst).Nodup) (hndB : (regB.map Prod.fst).Nodup)
    (hfA : ∀ e ∈ regA, ko.bool (e.1 ++ ".snapshot_enabled") = true → snapshotFile ko e.1 ≠ "")
    (hfB : ∀ e ∈ regB, ko.bool (e.1 ++ ".snapshot_enabled") = true → snapshotFile ko e.1 ≠ "")
    (name : String) (sA sB : Service) (hmA : (name, sA) ∈ regA) (hmB : (name, sB) ∈ regB)
    (hsame : (sA.Dump nA).data = (sB.Dump nB).data) :
    ∃ wA1 wB1 newA newB,
      sweep ko wrA nA regA wA = .ok wA1 ∧ sweep ko wrB nB regB wB = .ok wB1
        ∧ wA1.events = wA.events ++ newA ∧ wB1.events = wB.events ++ newB
        ∧ callsFor name newA = callsFor name newB := by
  refine ⟨_, _, regA.flatMap (entryEvents ko wrA nA), regB.flatMap (entryEvents ko wrB nB),
    sweep_ok ko wrA nA regA wA (configured_of_files nA hfA),
    sweep_ok ko wrB nB regB wB (configured_of_files nB hfB), rfl, rfl, ?_⟩
  rw [callsFor_sweep ko wrA nA hndA hmA, callsFor_sweep ko wrB nB hndB hmB, hsame]

theorem sweep_errors_do_not_block_witness :
    ∃ wA1 wB1 newA newB,
      sweep koBoth allWritesOk 0 regDictFx emptyWorld = .ok wA1
        ∧ sweep koBoth (fun _ _ => WriteOutcome.failed "disk full" none) 1 regDictFails
            emptyWorld = .ok wB1
        ∧ wA1.events = emptyWorld.events ++ newA ∧ wB1.events = emptyWorld.events ++ newB
        ∧ callsFor "fx" newA = callsFor "fx" newB :=
  sweep_errors_do_not_block koBoth allWritesOk (fun _ _ => WriteOutcome.failed "disk full" none)
    0 1 regDictFx regDictFails emptyWorld emptyWorld (by decide) (by decide)
    (by
      intro e he _
      simp only [regDictFx, List.mem_cons, List.mem_singleton, List.not_mem_nil,
        or_false] at he
      rcases he with rfl | rfl <;> decide)
    (by
      intro e he _
      simp only [regDictFails, List.mem_cons, List.mem_singleton, List.not_mem_nil,
        or_false] at he
      rcases he with rfl | rfl <;> decide)
    "fx" (constService ⟨some [2, 3], none⟩) (constService ⟨some [2, 3], none⟩)
    (by simp [regDictFx]) (by simp [regDictFails]) rfl

/-- C10 as stated fails in two ways.  With `dict` enabled and snapshot-enabled but
without a `snapshot_file`, a `Dump` that returns bytes together with an error is
followed by the panic of `MustString`: the bytes are not written.  And when `fx` and
`dict` share one snapshot path, the file of `fx` changes in a sweep in which the `Dump`
of `fx` returned `nil`, because `dict` writes to it. -/
theorem dump_bytes_not_always_written :
    active koDictNoFile "dict" = true
      ∧ (constService ⟨some [7], some "boom"⟩).Dump 0 = ⟨some [7], some "boom"⟩
      ∧ failureOf (sweep koDictNoFile allWritesOk 0 regDictFails emptyWorld)
          = some (Fatal.mustString "dict.snapshot_file")
      ∧ callsFor "dict" (traceOf (sweep koDictNoFile allWritesOk 0 regDictFails emptyWorld))
          = [Event.dump "dict"]
      ∧ active koShared "fx" = true
      ∧ (constService ⟨none, none⟩).Dump 0 = ⟨none, none⟩
      ∧ failureOf (sweep koShared allWritesOk 0 regFxNil worldShared) = none
      ∧ worldShared.fs (snapshotFile koShared "fx") = some [0]
      ∧ diskOf (sweep koShared allWritesOk 0 regFxNil worldShared) (snapshotFile koShared "fx")
          = some [1] := by
  decide

/-- C10, amended: in a sweep over a registry in which every enabled, snapshot-enabled
entry whose `Dump` returns data has a `snapshot_file` configured, for an entry with both
`enabled` and `snapshot_enabled` set whose path no other entry uses, the write depends
on the bytes `Dump` returned and not on its error: when `Dump` returns bytes `b`, with
or without an error, `b` is written to the entry's snapshot file, which holds exactly
`b` afterwards if the write succeeds; when `Dump` returns `nil`, with or without an
error, no write is made for the entry and the file keeps its contents. -/
theorem sweep_write_depends_on_bytes_only (ko : Koanf) (wr : WriteOracle) (n : Nat)
    (reg : Registry) (w : World) (hnd : (reg.map Prod.fst).Nodup)
    (hcfg : Configured ko n reg) (name : String) (s : Service) (hm : (name, s) ∈ reg)
    (hact : active ko name = true)
    (hp : ∀ e ∈ reg, e.1 ≠ name → snapshotFile ko e.1 ≠ snapshotFile ko name) :
    ∃ w1 new, sweep ko wr n reg w = .ok w1 ∧ w1.events = w.events ++ new ∧
      (∀ b err, s.Dump n = ⟨some b, err⟩ →
        Event.writeFile name (snapshotFile ko name) b ∈ new
          ∧ (wr n name = WriteOutcome.ok → w1.fs (snapshotFile ko name) = some b)) ∧
      (∀ err, s.Dump n = ⟨none, err⟩ →
        (∀ path b, Event.writeFile name path b ∉ new)
          ∧ w1.fs (snapshotFile ko name) = w.fs (snapshotFile ko name)) := by
  refine ⟨_, reg.flatMap (entryEvents ko wr n), sweep_ok ko wr n reg w hcfg, rfl, ?_, ?_⟩
  · intro b err hd
    have hc := callsFor_sweep ko wr n hnd hm
    simp only [hact, hd, if_true] at hc
    constructor
    · have hmem : Event.writeFile name (snapshotFile ko name) b
          ∈ callsFor name (reg.flatMap (entryEvents ko wr n)) := by rw [hc]; simp
      exact (List.mem_filter.mp hmem).1
    · intro hw
      show reg.foldl (entryFS ko wr n) w.fs (snapshotFile ko name) = some b
      rw [fs_sweep ko wr n w.fs hnd hm hp]
      simp [entryFS, hact, hd, hw, WriteFile, FS.set]
  · intro err hd
    have hc := callsFor_sweep ko wr n hnd hm
    simp only [hact, hd, if_true] at hc
    constructor
    · intro path b hmem
      have h2 : Event.writeFile name path b
          ∈ callsFor name (reg.flatMap (entryEvents ko wr n)) :=
        List.mem_filter.mpr ⟨hmem, by simp [Event.entry]⟩
      rw [hc] at h2
      simp at h2
    · show reg.foldl (entryFS ko wr n) w.fs (snapshotFile ko name) = _
      rw [fs_sweep ko wr n w.fs hnd hm hp]
      simp [entryFS, hact, hd]

theorem sweep_write_depends_on_bytes_only_witness :
    ∃ w1 new, sweep koBoth allWritesOk 0 regDictFails emptyWorld = .ok w1
      ∧ w1.events = emptyWorld.events ++ new ∧
      (∀ b err, (constService ⟨some [7], some "boom"⟩).Dump 0 = ⟨some b, err⟩ →
        Event.writeFile "dict" (snapshotFile koBoth "dict") b ∈ new
          ∧ (allWritesOk 0 "dict" = WriteOutcome.ok →
              w1.fs (snapshotFile koBoth "dict") = some b)) ∧
      (∀ err, (constService ⟨some [7], some "boom"⟩).Dump 0 = ⟨none, err⟩ →
        (∀ path b, Event.writeFile "dict" path b ∉ new)
          ∧ w1.fs (snapshotFile koBoth "dict") = emptyWorld.fs (snapshotFile koBoth "dict")) :=
  sweep_write_depends_on_bytes_only koBoth allWritesOk 0 regDictFails emptyWorld
    (by decide)
    (by
      intro e he _ _
      simp only [regDictFails, List.mem_cons, List.mem_singleton, List.not_mem_nil,
        or_false] at he
      rcases he with rfl | rfl <;> decide)
    "dict" (constService ⟨some [7], some "boom"⟩) (by simp [regDictFails]) (by decide)
    (by
      intro e he hne
      simp only [regDictFails, List.mem_cons, List.mem_singleton, List.not_mem_nil,
        or_false] at he
      rcases he with rfl | rfl
      · exact absurd rfl hne
      · decide)

/-! ## The signal loop: claims -/

/-- C3 as stated fails: with `dict` enabled and snapshot-enabled but without a
`snapshot_file`, and a `Dump` that returns data, the sweep started by `SIGUNUSED` does
not complete; the process is brought down by the panic of `MustString` and does not
return to listening. -/
theorem sigunused_can_terminate :
    SIGUNUSED ∈ notified
      ∧ (saveSnapshot koDictNoFile allWritesOk regDictFx [SIGUNUSED] 0 emptyWorld).crash
          = some (Fatal.mustString "dict.snapshot_file")
      ∧ (saveSnapshot koDictNoFile allWritesOk regDictFx [SIGUNUSED] 0
          emptyWorld).isListening = false := by
  decide

/-- C3, amended: provided every enabled, snapshot-enabled registry entry whose `Dump`
returns data has a `snapshot_file` configured, for every signal `s` that
`saveSnapshot` listens for, the handling of `s` first completes the sweep over the
whole registry and then decides: the process exits (with code 0, in the state the
completed sweep left) if and only if `s` is one of SIGTERM, SIGHUP, SIGQUIT, SIGINT;
for SIGUNUSED it goes back to listening.  For SIGUNUSED followed by a termination
signal `t` two complete sweeps are made in order and the exit follows the second. -/
theorem signal_sweeps_then_decides (ko : Koanf) (wr : WriteOracle) (reg : Registry)
    (hcfg : ∀ n, Configured ko n reg) (s : Signal) (hs : s ∈ notified)
    (rest : List Signal) (n : Nat) (w : World) :
    ∃ w1, sweep ko wr n reg (w.emit (.logf "received SIGNAL: `%s`" [signalString s])) = .ok w1
      ∧ (s ∈ terminationSignals → saveSnapshot ko wr reg (s :: rest) n w = .exited 0 w1)
      ∧ (s = SIGUNUSED →
          saveSnapshot ko wr reg (s :: rest) n w = saveSnapshot ko wr reg rest (n + 1) w1
            ∧ saveSnapshot ko wr reg [s] n w = .listening (n + 1) w1)
      ∧ ((saveSnapshot ko wr reg [s] n w).hasExited = true ↔ s ∈ terminationSignals)
      ∧ (∀ t ∈ terminationSignals, s = SIGUNUSED →
          ∃ w2, sweep ko wr (n + 1) reg
                  (w1.emit (.logf "received SIGNAL: `%s`" [signalString t])) = .ok w2
            ∧ saveSnapshot ko wr reg (s :: t :: rest) n w = .exited 0 w2) := by
  have h1 := sweep_ok ko wr n reg (w.emit (.logf "received SIGNAL: `%s`" [signalString s]))
    (hcfg n)
  refine ⟨_, h1, ?_, ?_, ?_, ?_⟩
  · intro ht
    have hne : s ≠ SIGUNUSED := by
      intro h; subst h; revert ht; decide
    simp only [saveSnapshot, h1]
    simp [hne]
  · intro hu
    subst hu
    simp only [saveSnapshot, h1]
    simp
  · by_cases hu : s = SIGUNUSED
    · subst hu
      simp only [saveSnapshot, h1]
      simp only [ne_eq, not_true_eq_false, if_false, Proc.hasExited]
      decide
    · have ht : s ∈ terminationSignals := by
        simp only [notified, List.mem_cons, List.mem_singleton, List.not_mem_nil,
          or_false] at hs
        simp only [terminationSignals, List.mem_cons, List.mem_singleton, List.not_mem_nil,
          or_false]
        tauto
      simp only [saveSnapshot, h1]
      simp [hu, Proc.hasExited, ht]
  · intro t ht hu
    subst hu
    have hne : t ≠ SIGUNUSED := by
      intro h; subst h; revert ht; decide
    have h2 := sweep_ok ko wr (n + 1) reg
      (World.emit
        { fs := reg.foldl (entryFS ko wr n)
            (w.emit (.logf "received SIGNAL: `%s`" [signalString SIGUNUSED])).fs,
          events := (w.emit (.logf "received SIGNAL: `%s`" [signalString SIGUNUSED])).events
            ++ reg.flatMap (entryEvents ko wr n) }
        (.logf "received SIGNAL: `%s`" [signalString t])) (hcfg (n + 1))
    refine ⟨_, h2, ?_⟩
    simp only [saveSnapshot, h1, h2]
    simp [hne]

theorem signal_sweeps_then_decides_witness :
    ∃ w1, sweep koBoth allWritesOk 0 regDictFails
        (emptyWorld.emit (.logf "received SIGNAL: `%s`" [signalString SIGUNUSED])) = .ok w1
      ∧ (SIGUNUSED ∈ terminationSignals →
          saveSnapshot koBoth allWritesOk regDictFails (SIGUNUSED :: [SIGTERM]) 0 emptyWorld
            = .exited 0 w1)
      ∧ (SIGUNUSED = SIGUNUSED →
          saveSnapshot koBoth allWritesOk regDictFails (SIGUNUSED :: [SIGTERM]) 0 emptyWorld
              = saveSnapshot koBoth allWritesOk regDictFails [SIGTERM] (0 + 1) w1
            ∧ saveSnapshot koBoth allWritesOk regDictFails [SIGUNUSED] 0 emptyWorld
              = .listening (0 + 1) w1)
      ∧ ((saveSnapshot koBoth allWritesOk regDictFails [SIGUNUSED] 0 emptyWorld).hasExited
            = true ↔ SIGUNUSED ∈ terminationSignals)
      ∧ (∀ t ∈ terminationSignals, SIGUNUSED = SIGUNUSED →
          ∃ w2, sweep koBoth allWritesOk (0 + 1) regDictFails
                  (w1.emit (.logf "received SIGNAL: `%s`" [signalString t])) = .ok w2
            ∧ saveSnapshot koBoth allWritesOk regDictFails (SIGUNUSED :: t :: [SIGTERM]) 0
                emptyWorld = .exited 0 w2) :=
  signal_sweeps_then_decides koBoth allWritesOk regDictFails
    (by
      intro n e he _ _
      simp only [regDictFails, List.mem_cons, List.mem_singleton, List.not_mem_nil,
        or_false] at he
      rcases he with rfl | rfl <;> decide)
    SIGUNUSED (by decide) [SIGTERM] 0 emptyWorld

/-! ## Startup: auxiliary facts -/

theorem canonical_labels :
    CanonicalName "rand." = "rand." ∧ CanonicalName "pi." = "pi."
      ∧ CanonicalName "dice." = "dice." ∧ CanonicalName "fx." = "fx."
      ∧ CanonicalName "dict." = "dict." ∧ CanonicalName "ip." = "ip."
      ∧ CanonicalName "help." = "help." ∧ CanonicalName "." = "." := by
  decide

theorem HandleFunc_eq (st : St) (p : String) (h : Handler) (hp : p ≠ "") :
    HandleFunc st p h = .ok (st.bound p h) := by
  unfold HandleFunc
  simp only [hp, if_false]
  rfl

theorem register_eq (st : St) (name : String) (s : Service)
    (hn : name ∉ st.services.map Prod.fst)
    (hk : CanonicalName (name ++ ".") ∉ st.mux.map Prod.fst) (hp : name ++ "." ≠ "") :
    register st name s = .ok (st.registered name s) := by
  unfold register
  have h1 : (st.emit (.register name)).services.any (fun e => e.1 = name) = false := by
    rw [List.any_eq_false]
    intro e he hen
    exact hn (List.mem_map.mpr ⟨e, he, by simpa using hen⟩)
  have h2 : (st.emit (.register name)).mux.any
      (fun e => e.1 = CanonicalName (name ++ ".")) = false := by
    rw [List.any_eq_false]
    intro e he hen
    exact hk (List.mem_map.mpr ⟨e, he, by simpa using hen⟩)
  simp only [h1, h2, Bool.or_self, Bool.false_eq_true, if_false]
  rw [HandleFunc_eq _ _ _ hp]
  rfl

theorem muxSet_keys (z : Mux) (k : String) (h : Handler) :
    ∀ x ∈ (muxSet z k h).map Prod.fst, x = k ∨ x ∈ z.map Prod.fst := by
  induction z with
  | nil => intro x hx; simp [muxSet] at hx; exact Or.inl hx
  | cons e rest ih =>
    intro x hx
    obtain ⟨k1, v1⟩ := e
    unfold muxSet at hx
    by_cases hk : k1 = k
    · simp only [hk, if_true] at hx
      right; simpa [hk] using hx
    · simp only [hk, if_false, List.map_cons, List.mem_cons] at hx
      rcases hx with hx | hx
      · right; simp [hx]
      · rcases ih x hx with h1 | h1
        · exact Or.inl h1
        · right; simp [h1]

theorem fresh_init (ko : Koanf) (fs : FS) : Fresh [] [] (St.init ko fs) := by
  constructor <;> intro x hx <;> simp [St.init] at hx

theorem fresh_registered {N L : List String} {st : St} (name : String) (s : Service)
    (h : Fresh N L st) :
    Fresh (name :: N) (CanonicalName (name ++ ".") :: L) (st.registered name s) := by
  constructor
  · intro n hn
    simp only [St.registered, List.map_append, List.mem_append, List.map_cons, List.map_nil,
      List.mem_singleton] at hn
    rcases hn with hn | hn
    · exact List.mem_cons_of_mem _ (h.1 n hn)
    · simp [hn]
  · intro k hk
    rcases muxSet_keys _ _ _ k hk with h1 | h1
    · simp [h1]
    · exact List.mem_cons_of_mem _ (h.2 k h1)

theorem fresh_bound {N L : List String} {st : St} (p : String) (hd : Handler)
    (h : Fresh N L st) : Fresh N (CanonicalName p :: L) (st.bound p hd) := by
  constructor
  · exact h.1
  · intro k hk
    rcases muxSet_keys _ _ _ k hk with h1 | h1
    · simp [h1]
    · exact List.mem_cons_of_mem _ (h.2 k h1)

theorem fresh_mono {N L N1 L1 : List String} {st : St} (h : Fresh N L st)
    (hN : ∀ n ∈ N, n ∈ N1) (hL : ∀ k ∈ L, k ∈ L1) : Fresh N1 L1 st :=
  ⟨fun n hn => hN n (h.1 n hn), fun k hk => hL k (h.2 k hk)⟩

theorem fresh_rand {N L : List String} {st : St} (ko : Koanf) (env : Env) (h : Fresh N L st) :
    Fresh ("rand" :: N) ("rand." :: L) (randDone ko env st) := by
  unfold randDone
  split
  · have := fresh_registered "rand" env.randomNew h
    rw [show ("rand" ++ "." : String) = "rand." from by decide, canonical_labels.1] at this
    exact this
  · exact fresh_mono h (fun n hn => List.mem_cons_of_mem _ hn)
      (fun k hk => List.mem_cons_of_mem _ hk)

theorem fresh_pi {N L : List String} {st : St} (ko : Koanf) (h : Fresh N L st) :
    Fresh N ("pi." :: L) (piDone ko st) := by
  unfold piDone
  split
  · have := fresh_bound "pi." .handlePi h
    rw [canonical_labels.2.1] at this
    exact this
  · exact fresh_mono h (fun n hn => hn) (fun k hk => List.mem_cons_of_mem _ hk)

theorem fresh_dice {N L : List String} {st : St} (ko : Koanf) (env : Env) (h : Fresh N L st) :
    Fresh ("dice" :: N) ("dice." :: L) (diceDone ko env st) := by
  unfold diceDone
  split
  · have := fresh_registered "dice" env.diceNew h
    rw [show ("dice" ++ "." : String) = "dice." from by decide, canonical_labels.2.2.1] at this
    exact this
  · exact fresh_mono h (fun n hn => List.mem_cons_of_mem _ hn)
      (fun k hk => List.mem_cons_of_mem _ hk)

theorem fresh_fx {N L : List String} {st : St} (ko : Koanf) (env : Env) (h : Fresh N L st) :
    Fresh ("fx" :: N) ("fx." :: L) (fxDone ko env st) := by
  unfold fxDone
  split
  · have := fresh_registered "fx"
      (fxRestore ko env st.world.fs (ko.duration "fx.refresh_interval")).1
      (show Fresh N L
        (st.restored (fxRestore ko env st.world.fs (ko.duration "fx.refresh_interval")).2)
        from h)
    rw [show ("fx" ++ "." : String) = "fx." from by decide, canonical_labels.2.2.2.1] at this
    exact this
  · exact fresh_mono h (fun n hn => List.mem_cons_of_mem _ hn)
      (fun k hk => List.mem_cons_of_mem _ hk)

theorem fresh_dict {N L : List String} {st : St} (ko : Koanf) (env : Env) (h : Fresh N L st) :
    Fresh ("dict" :: N) ("dict." :: L) (dictDone ko env st) := by
  unfold dictDone
  split
  · have := fresh_registered "dict"
      (env.dictNew (ko.string "dict.wordnet_path") (ko.int "dict.max_results")) h
    rw [show ("dict" ++ "." : String) = "dict." from by decide,
      canonical_labels.2.2.2.2.1] at this
    exact this
  · exact fresh_mono h (fun n hn => List.mem_cons_of_mem _ hn)
      (fun k hk => List.mem_cons_of_mem _ hk)

theorem fresh_ip {N L : List String} {st : St} (ko : Koanf) (h : Fresh N L st) :
    Fresh N ("ip." :: L) (ipDone ko st) := by
  unfold ipDone
  split
  · have := fresh_bound "ip." .handleEchoIP h
    rw [canonical_labels.2.2.2.2.2.1] at this
    exact this
  · exact fresh_mono h (fun n hn => hn) (fun k hk => List.mem_cons_of_mem _ hk)

theorem register_fresh {N L : List String} {st : St} (name label : String) (s : Service)
    (h : Fresh N L st) (hl : CanonicalName (name ++ ".") = label) (hn : name ∉ N)
    (hk : label ∉ L) (hp : name ++ "." ≠ "") :
    register st name s = .ok (st.registered name s) :=
  register_eq st name s (fun hh => hn (h.1 _ hh)) (fun hh => hk (hl ▸ h.2 _ hh)) hp

theorem randBlock_eq {N L : List String} {st : St} (ko : Koanf) (env : Env)
    (h : Fresh N L st) (hn : "rand" ∉ N) (hk : "rand." ∉ L) :
    randBlock ko env st = .ok (randDone ko env st) := by
  unfold randBlock randDone
  split
  · rw [register_fresh "rand" "rand." env.randomNew h (by decide) hn hk (by decide)]
  · rfl

theorem piBlock_eq (ko : Koanf) (st : St) : piBlock ko st = .ok (piDone ko st) := by
  unfold piBlock piDone
  split
  · rw [HandleFunc_eq _ _ _ (by decide)]
  · rfl

theorem diceBlock_eq {N L : List String} {st : St} (ko : Koanf) (env : Env)
    (h : Fresh N L st) (hn : "dice" ∉ N) (hk : "dice." ∉ L) :
    diceBlock ko env st = .ok (diceDone ko env st) := by
  unfold diceBlock diceDone
  split
  · rw [register_fresh "dice" "dice." env.diceNew h (by decide) hn hk (by decide)]
  · rfl

theorem ipBlock_eq (ko : Koanf) (st : St) : ipBlock ko st = .ok (ipDone ko st) := by
  unfold ipBlock ipDone
  split
  · rw [HandleFunc_eq _ _ _ (by decide)]
  · rfl

theorem dictBlock_eq {N L : List String} {st : St} (ko : Koanf) (env : Env)
    (h : Fresh N L st) (hn : "dict" ∉ N) (hk : "dict." ∉ L) :
    dictBlock ko env st
      = match dictFailure ko with
        | some f => .error (f, st)
        | none => .ok (dictDone ko env st) := by
  unfold dictBlock dictDone dictFailure MustString MustInt
  by_cases hf : ko.bool "dict.enabled" = true
  · simp only [hf, if_true]
    by_cases h1 : ko.string "dict.wordnet_path" = ""
    · simp [h1]
    · simp only [h1, if_false]
      by_cases h2 : ko.int "dict.max_results" = 0
      · simp [h2]
      · simp only [h2, if_false]
        rw [register_fresh "dict" "dict." _ h (by decide) hn hk (by decide)]
  · simp [hf]

theorem fx_keys : ("fx" ++ ".snapshot_enabled" : String) = "fx.snapshot_enabled"
    ∧ ("fx" ++ ".snapshot_file" : String) = "fx.snapshot_file" := by decide

theorem fxBlock_eq {N L : List String} {st : St} (ko : Koanf) (env : Env)
    (h : Fresh N L st) (hn : "fx" ∉ N) (hk : "fx." ∉ L) :
    fxBlock ko env st
      = match fxFailure ko with
        | some f => .error (f, st)
        | none => .ok (fxDone ko env st) := by
  have hreg : ∀ (w : World) (s : Service),
      register { st with world := w } "fx" s
        = .ok (St.registered { st with world := w } "fx" s) := fun w s =>
    register_fresh "fx" "fx." s (show Fresh N L { st with world := w } from h) (by decide)
      hn hk (by decide)
  unfold fxBlock fxDone fxFailure MustDuration loadSnapshot MustString fxRestore
  rw [fx_keys.1, fx_keys.2]
  by_cases hf : ko.bool "fx.enabled" = true
  · simp only [hf, if_true]
    by_cases h1 : ko.duration "fx.refresh_interval" = 0
    · simp [h1]
    · simp only [h1, if_false]
      by_cases hs : ko.bool "fx.snapshot_enabled" = true
      · simp only [hs, Bool.not_true, Bool.false_eq_true, if_false, true_and, if_true]
        by_cases h2 : ko.string "fx.snapshot_file" = ""
        · simp [h2]
        · simp only [h2, if_false]
          cases hread : ReadFile env.readFault st.world.fs (ko.string "fx.snapshot_file") with
          | error e =>
            cases e with
            | pathError msg => simp only [hreg]; rfl
            | other msg => simp only [hreg]; simp [St.restored, St.registered, World.emit]
          | ok b =>
            simp only [hreg]
            cases hload : (env.fxLoad (env.fxNew (ko.duration "fx.refresh_interval")) b).2 <;>
              simp [St.restored, St.registered, World.emit]
      · have hs0 : ko.bool "fx.snapshot_enabled" = false := by simpa using hs
        simp only [hs0, Bool.not_false, if_true, Bool.false_eq_true, false_and, if_false, hreg]
        simp [St.restored, St.registered]
  · simp [hf]

theorem main_eq (ko : Koanf) (env : Env) (fs : FS) : main ko env fs = startup ko env fs := by
  have f0 := fresh_init ko fs
  have f1 := fresh_rand ko env f0
  have f2 := fresh_pi ko f1
  have f3 := fresh_dice ko env f2
  have f4 := fresh_fx ko env f3
  have f5 := fresh_dict ko env f4
  unfold main startup prepared initBlock MustString
  by_cases hd : ko.string "server.domain" = ""
  · simp only [hd, if_true, bind, Except.bind, St.init]
  · simp only [hd, if_false]
    show (Except.ok (St.init ko fs) >>= randBlock ko env >>= piBlock ko >>= diceBlock ko env
        >>= fxBlock ko env >>= dictBlock ko env >>= ipBlock ko >>= helpBlock ko env
        >>= (fun st => HandleFunc st "help." .handleHelp)
        >>= (fun st => HandleFunc st "." .handleDefault)) = _
    simp only [bind, Except.bind]
    rw [randBlock_eq ko env f0 (by decide) (by decide)]
    simp only [piBlock_eq]
    rw [diceBlock_eq ko env f2 (by decide) (by decide)]
    simp only []
    rw [fxBlock_eq ko env f3 (by decide) (by decide)]
    cases hfx : fxFailure ko with
    | some f => rfl
    | none =>
      simp only []
      rw [dictBlock_eq ko env f4 (by decide) (by decide)]
      cases hdict : dictFailure ko with
      | some f => rfl
      | none =>
        simp only [ipBlock_eq]
        unfold helpBlock MustString
        by_cases ha : ko.string "server.address" = ""
        · simp only [ha, if_true]
        · simp only [ha, if_false]
          cases hl : helpLoop env (portOf (ko.string "server.address"))
              (ipDone ko (dictDone ko env (fxDone ko env
                (diceDone ko env (piDone ko (randDone ko env (St.init ko fs))))))).help
              (ipDone ko (dictDone ko env (fxDone ko env
                (diceDone ko env (piDone ko (randDone ko env (St.init ko fs))))))) with
          | error x => rfl
          | ok st1 =>
            simp only []
            rw [HandleFunc_eq _ _ _ (by decide)]
            simp only []
            rw [HandleFunc_eq _ _ _ (by decide)]

theorem formatChars_lit (lit rest : List Char) (args : List Arg) (h : '%' ∉ lit) :
    formatChars (lit ++ rest) args = (formatChars rest args).map (fun r => lit ++ r) := by
  induction lit with
  | nil => simp
  | cons c l ih =>
    have hc : c ≠ '%' := fun hh => h (by simp [hh])
    have hl : '%' ∉ l := fun hh => h (List.mem_cons_of_mem _ hh)
    rw [List.cons_append, formatChars.eq_def]
    simp only [hc, if_false, ih hl, Option.map_map]
    rfl

theorem formatChars_s (x : String) (rest : List Char) (args : List Arg) :
    formatChars ('%' :: 's' :: rest) (.str x :: args)
      = (formatChars rest args).map (fun r => x.data ++ r) := by
  simp [formatChars]

theorem formatChars_d (k : Int) (rest : List Char) (args : List Arg) :
    formatChars ('%' :: 'd' :: rest) (.int k :: args)
      = (formatChars rest args).map (fun r => (toString k).data ++ r) := by
  simp [formatChars]

/-- A template with two `%s` and no other `%`: the placeholders are replaced, in
order, and the rest is copied. -/
theorem Sprintf_two (pre mid post a b : String) (h1 : '%' ∉ pre.data) (h2 : '%' ∉ mid.data)
    (h3 : '%' ∉ post.data) :
    Sprintf (pre ++ "%s" ++ mid ++ "%s" ++ post) [.str a, .str b]
      = some (pre ++ a ++ mid ++ b ++ post) := by
  unfold Sprintf
  have hd : (pre ++ "%s" ++ mid ++ "%s" ++ post).data
      = pre.data ++ ('%' :: 's' :: (mid.data ++ ('%' :: 's' :: (post.data ++ [])))) := by
    simp [String.data_append]
  rw [hd, formatChars_lit _ _ _ h1, formatChars_s, formatChars_lit _ _ _ h2, formatChars_s,
    formatChars_lit _ _ _ h3]
  simp [formatChars, String.ext_iff, String.data_append]

theorem Svc.format_eq (s : Svc) :
    s.format = s.template.1 ++ "%s" ++ s.template.2.1 ++ "%s" ++ s.template.2.2
      ∧ '%' ∉ s.template.1.data ∧ '%' ∉ s.template.2.1.data ∧ '%' ∉ s.template.2.2.data
      ∧ '%' ∉ s.description.data := by
  cases s <;> decide

theorem helpText_eq (d p : String) (s : Svc) :
    helpText d p (s.description, s.format) = some (recordText d p s) := by
  obtain ⟨hf, h1, h2, h3, _⟩ := Svc.format_eq s
  unfold helpText
  simp only [hf, Sprintf_two _ _ _ d p h1 h2 h3]
  unfold Sprintf recordText
  have hd : ("help. %d TXT \"%s\" \"%s\"" : String).data
      = "help. ".data ++ ('%' :: 'd' :: (" TXT \"".data ++ ('%' :: 's' :: ("\" \"".data
          ++ ('%' :: 's' :: ("\"".data ++ [])))))) := by decide
  rw [hd, formatChars_lit _ _ _ (by decide), formatChars_d, formatChars_lit _ _ _ (by decide),
    formatChars_s, formatChars_lit _ _ _ (by decide), formatChars_s,
    formatChars_lit _ _ _ (by decide)]
  have ht : (toString HELP_TTL).data = "86400".data := by decide
  simp only [ht]
  simp [formatChars, String.ext_iff, String.data_append]

theorem enabledSvcs_eq (ko : Koanf) :
    enabledSvcs ko
      = (if ko.bool "rand.enabled" then [Svc.rand] else [])
        ++ ((if ko.bool "pi.enabled" then [Svc.pi] else [])
        ++ ((if ko.bool "dice.enabled" then [Svc.dice] else [])
        ++ ((if ko.bool "fx.enabled" then [Svc.fx] else [])
        ++ ((if ko.bool "dict.enabled" then [Svc.dict] else [])
        ++ (if ko.bool "ip.enabled" then [Svc.ip] else []))))) := by
  have hk : ∀ s : Svc, s.name ++ ".enabled" = match s with
      | .rand => "rand.enabled" | .pi => "pi.enabled" | .dice => "dice.enabled"
      | .fx => "fx.enabled" | .dict => "dict.enabled" | .ip => "ip.enabled" := by
    intro s; cases s <;> decide
  unfold enabledSvcs allSvcs
  simp only [List.filter, hk]
  cases ko.bool "rand.enabled" <;> cases ko.bool "pi.enabled" <;> cases ko.bool "dice.enabled"
    <;> cases ko.bool "fx.enabled" <;> cases ko.bool "dict.enabled" <;> cases ko.bool "ip.enabled"
    <;> rfl

theorem muxSet_fresh (z : Mux) (k : String) (h : Handler) (hk : k ∉ z.map Prod.fst) :
    muxSet z k h = z ++ [(k, h)] := by
  induction z with
  | nil => rfl
  | cons e rest ih =>
    obtain ⟨k1, v1⟩ := e
    have h1 : k1 ≠ k := fun hh => hk (by simp [hh])
    have h2 : k ∉ rest.map Prod.fst := fun hh => hk (by simp [hh])
    simp [muxSet, h1, ih h2]

theorem extends_refl (st : St) : St.Extends st st [] [] [] [] := by
  simp [St.Extends]

theorem extends_trans {a b c : St} {m1 m2 : Mux} {h1 h2 : List (String × String)}
    {s1 s2 : Registry} {e1 e2 : List Event} (hab : St.Extends b a m1 h1 s1 e1)
    (hbc : St.Extends c b m2 h2 s2 e2) :
    St.Extends c a (m1 ++ m2) (h1 ++ h2) (s1 ++ s2) (e1 ++ e2) := by
  obtain ⟨a1, a2, a3, a4, a5, a6, a7⟩ := hab
  obtain ⟨b1, b2, b3, b4, b5, b6, b7⟩ := hbc
  refine ⟨?_, ?_, ?_, ?_, ?_, ?_, ?_⟩
  · rw [b1, a1, List.append_assoc]
  · rw [b2, a2, List.append_assoc]
  · rw [b3, a3, List.append_assoc]
  · rw [b4, a4, List.append_assoc]
  · rw [b5, a5]
  · rw [b6, a6]
  · rw [b7, a7]

theorem extends_registered {N L : List String} {st : St} (name label desc fmt : String)
    (s : Service) (h : Fresh N L st) (hl : CanonicalName (name ++ ".") = label)
    (hk : label ∉ L) :
    St.Extends ((st.registered name s).addHelp desc fmt) st [(label, .service name)]
      [(desc, fmt)] [(name, s)] [.register name, .handleFunc (name ++ ".")] := by
  have hk1 : label ∉ st.mux.map Prod.fst := fun hh => hk (h.2 _ hh)
  refine ⟨?_, rfl, rfl, ?_, rfl, rfl, rfl⟩
  · show muxSet st.mux (CanonicalName (name ++ ".")) _ = _
    rw [hl, muxSet_fresh _ _ _ hk1]
  · simp [St.addHelp, St.registered, World.emit]

theorem extends_bound {N L : List String} {st : St} (p desc fmt : String) (hd : Handler)
    (h : Fresh N L st) (hl : CanonicalName p = p) (hk : p ∉ L) :
    St.Extends ((st.bound p hd).addHelp desc fmt) st [(p, hd)] [(desc, fmt)] []
      [.handleFunc p] := by
  have hk1 : p ∉ st.mux.map Prod.fst := fun hh => hk (h.2 _ hh)
  refine ⟨?_, rfl, ?_, ?_, rfl, rfl, rfl⟩
  · show muxSet st.mux (CanonicalName p) _ = _
    rw [hl, muxSet_fresh _ _ _ hk1]
  · simp [St.addHelp, St.bound]
  · simp [St.addHelp, St.bound, World.emit]

theorem extends_rand {N L : List String} {st : St} (ko : Koanf) (env : Env) (fs : FS)
    (h : Fresh N L st) (hk : "rand." ∉ L) :
    St.Extends (randDone ko env st) st
      (contributions ko env fs (if ko.bool "rand.enabled" then [Svc.rand] else [])).1
      (contributions ko env fs (if ko.bool "rand.enabled" then [Svc.rand] else [])).2.1
      (contributions ko env fs (if ko.bool "rand.enabled" then [Svc.rand] else [])).2.2.1
      (contributions ko env fs (if ko.bool "rand.enabled" then [Svc.rand] else [])).2.2.2 := by
  unfold randDone
  split
  · exact extends_registered "rand" "rand." _ _ env.randomNew h (by decide) hk
  · exact extends_refl st

theorem extends_pi {N L : List String} {st : St} (ko : Koanf) (env : Env) (fs : FS)
    (h : Fresh N L st) (hk : "pi." ∉ L) :
    St.Extends (piDone ko st) st
      (contributions ko env fs (if ko.bool "pi.enabled" then [Svc.pi] else [])).1
      (contributions ko env fs (if ko.bool "pi.enabled" then [Svc.pi] else [])).2.1
      (contributions ko env fs (if ko.bool "pi.enabled" then [Svc.pi] else [])).2.2.1
      (contributions ko env fs (if ko.bool "pi.enabled" then [Svc.pi] else [])).2.2.2 := by
  unfold piDone
  split
  · exact extends_bound "pi." _ _ .handlePi h (by decide) hk
  · exact extends_refl st

theorem extends_dice {N L : List String} {st : St} (ko : Koanf) (env : Env) (fs : FS)
    (h : Fresh N L st) (hk : "dice." ∉ L) :
    St.Extends (diceDone ko env st) st
      (contributions ko env fs (if ko.bool "dice.enabled" then [Svc.dice] else [])).1
      (contributions ko env fs (if ko.bool "dice.enabled" then [Svc.dice] else [])).2.1
      (contributions ko env fs (if ko.bool "dice.enabled" then [Svc.dice] else [])).2.2.1
      (contributions ko env fs (if ko.bool "dice.enabled" then [Svc.dice] else [])).2.2.2 := by
  unfold diceDone
  split
  · exact extends_registered "dice" "dice." _ _ env.diceNew h (by decide) hk
  · exact extends_refl st

theorem extends_dict {N L : List String} {st : St} (ko : Koanf) (env : Env) (fs : FS)
    (h : Fresh N L st) (hk : "dict." ∉ L) :
    St.Extends (dictDone ko env st) st
      (contributions ko env fs (if ko.bool "dict.enabled" then [Svc.dict] else [])).1
      (contributions ko env fs (if ko.bool "dict.enabled" then [Svc.dict] else [])).2.1
      (contributions ko env fs (if ko.bool "dict.enabled" then [Svc.dict] else [])).2.2.1
      (contributions ko env fs (if ko.bool "dict.enabled" then [Svc.dict] else [])).2.2.2 := by
  unfold dictDone
  split
  · exact extends_registered "dict" "dict." _ _ _ h (by decide) hk
  · exact extends_refl st

theorem extends_ip {N L : List String} {st : St} (ko : Koanf) (env : Env) (fs : FS)
    (h : Fresh N L st) (hk : "ip." ∉ L) :
    St.Extends (ipDone ko st) st
      (contributions ko env fs (if ko.bool "ip.enabled" then [Svc.ip] else [])).1
      (contributions ko env fs (if ko.bool "ip.enabled" then [Svc.ip] else [])).2.1
      (contributions ko env fs (if ko.bool "ip.enabled" then [Svc.ip] else [])).2.2.1
      (contributions ko env fs (if ko.bool "ip.enabled" then [Svc.ip] else [])).2.2.2 := by
  unfold ipDone
  split
  · exact extends_bound "ip." _ _ .handleEchoIP h (by decide) hk
  · exact extends_refl st

theorem extends_fx {N L : List String} {st : St} (ko : Koanf) (env : Env) (fs : FS)
    (h : Fresh N L st) (hk : "fx." ∉ L) (hfs : st.world.fs = fs) :
    St.Extends (fxDone ko env st) st
      (contributions ko env fs (if ko.bool "fx.enabled" then [Svc.fx] else [])).1
      (contributions ko env fs (if ko.bool "fx.enabled" then [Svc.fx] else [])).2.1
      (contributions ko env fs (if ko.bool "fx.enabled" then [Svc.fx] else [])).2.2.1
      (contributions ko env fs (if ko.bool "fx.enabled" then [Svc.fx] else [])).2.2.2 := by
  unfold fxDone
  split
  · subst hfs
    have h1 : St.Extends
        (st.restored (fxRestore ko env st.world.fs (ko.duration "fx.refresh_interval")).2) st
        [] [] [] (fxRestore ko env st.world.fs (ko.duration "fx.refresh_interval")).2 := by
      simp [St.Extends, St.restored]
    have h2 := extends_registered "fx" "fx." Svc.fx.description Svc.fx.format
      (fxRestore ko env st.world.fs (ko.duration "fx.refresh_interval")).1
      (show Fresh N L
        (st.restored (fxRestore ko env st.world.fs (ko.duration "fx.refresh_interval")).2)
        from h) (by decide) hk
    have h3 := extends_trans h1 h2
    simpa [contributions, contribution] using h3
  · exact extends_refl st

theorem contributions_append (ko : Koanf) (env : Env) (fs : FS) (a b : List Svc) :
    contributions ko env fs (a ++ b)
      = ((contributions ko env fs a).1 ++ (contributions ko env fs b).1,
         (contributions ko env fs a).2.1 ++ (contributions ko env fs b).2.1,
         (contributions ko env fs a).2.2.1 ++ (contributions ko env fs b).2.2.1,
         (contributions ko env fs a).2.2.2 ++ (contributions ko env fs b).2.2.2) := by
  simp [contributions, List.flatMap_append]

/-- The state after the six blocks is the initial one extended by what each enabled
service contributes, in the fixed order. -/
theorem prepared_extends (ko : Koanf) (env : Env) (fs : FS) :
    St.Extends (prepared ko env fs) (St.init ko fs)
      (contributions ko env fs (enabledSvcs ko)).1
      (contributions ko env fs (enabledSvcs ko)).2.1
      (contributions ko env fs (enabledSvcs ko)).2.2.1
      (contributions ko env fs (enabledSvcs ko)).2.2.2 := by
  have f0 := fresh_init ko fs
  have f1 := fresh_rand ko env f0
  have f2 := fresh_pi ko f1
  have f3 := fresh_dice ko env f2
  have f4 := fresh_fx ko env f3
  have f5 := fresh_dict ko env f4
  have e1 := extends_rand ko env fs f0 (by decide)
  have e2 := extends_pi ko env fs f1 (by decide)
  have e3 := extends_dice ko env fs f2 (by decide)
  have e4 := extends_fx ko env fs f3 (by decide)
    (by rw [e3.2.2.2.2.2.2, e2.2.2.2.2.2.2, e1.2.2.2.2.2.2]; rfl)
  have e5 := extends_dict ko env fs f4 (by decide)
  have e6 := extends_ip ko env fs f5 (by decide)
  have e := extends_trans e1 (extends_trans e2 (extends_trans e3 (extends_trans e4
    (extends_trans e5 e6))))
  rw [enabledSvcs_eq]
  simp only [contributions_append]
  exact e

theorem helpLoop_ok (env : Env) (port : String) :
    ∀ (svcs : List Svc) (st st1 : St),
      helpLoop env port (svcs.map (fun s => (s.description, s.format))) st = .ok st1 →
      ∃ rs, List.Forall₂ (fun s r => env.newRR (recordText st.domain port s) = .ok r) svcs rs
        ∧ st1.helpRRs = st.helpRRs ++ rs
        ∧ st1.world.events
            = st.world.events ++ svcs.map (fun s => Event.newRR (recordText st.domain port s))
        ∧ st1.mux = st.mux ∧ st1.services = st.services ∧ st1.domain = st.domain
        ∧ st1.help = st.help ∧ st1.world.fs = st.world.fs := by
  intro svcs
  induction svcs with
  | nil =>
    intro st st1 h
    simp only [List.map_nil, helpLoop] at h
    cases h
    exact ⟨[], List.Forall₂.nil, by simp, by simp, rfl, rfl, rfl, rfl, rfl⟩
  | cons s rest ih =>
    intro st st1 h
    simp only [List.map_cons, helpLoop, helpText_eq] at h
    cases hr : env.newRR (recordText st.domain port s) with
    | error err => rw [hr] at h; cases h
    | ok r =>
      rw [hr] at h
      obtain ⟨rs, h1, h2, h3, h4, h5, h6, h7, h8⟩ := ih _ _ h
      refine ⟨r :: rs, List.Forall₂.cons hr h1, ?_, ?_, h4, h5, h6, h7, h8⟩
      · rw [h2]; simp [St.emit]
      · rw [h3]; simp [St.emit, World.emit]

/-- Whatever the outcome of the help loop, it only adds `dns.NewRR` calls to the trace
and leaves the router and the registry as they are. -/
theorem helpLoop_reached (env : Env) (port : String) :
    ∀ (ls : List (String × String)) (st : St),
      ∃ texts : List String,
        (reached (helpLoop env port ls st)).world.events
            = st.world.events ++ texts.map Event.newRR
          ∧ (reached (helpLoop env port ls st)).mux = st.mux
          ∧ (reached (helpLoop env port ls st)).services = st.services := by
  intro ls
  induction ls with
  | nil => intro st; exact ⟨[], by simp [helpLoop, reached], rfl, rfl⟩
  | cons l rest ih =>
    intro st
    unfold helpLoop
    cases ht : helpText st.domain port l with
    | none => exact ⟨[], by simp [reached], rfl, rfl⟩
    | some text =>
      simp only []
      cases hr : env.newRR text with
      | error err => exact ⟨[text], by simp [reached, St.emit, World.emit], rfl, rfl⟩
      | ok r =>
        simp only []
        obtain ⟨texts, h1, h2, h3⟩ := ih { st.emit (.newRR text) with
          helpRRs := (st.emit (.newRR text)).helpRRs ++ [r] }
        exact ⟨text :: texts, by rw [h1]; simp [St.emit, World.emit], h2, h3⟩

/-- Whether, and how, the help loop fails depends on `dns.NewRR`, the port, the help
table and the domain only. -/
theorem helpLoop_failure (envA envB : Env) (port : String) (hrr : envA.newRR = envB.newRR) :
    ∀ (ls : List (String × String)) (stA stB : St), stA.domain = stB.domain →
      failureOf (helpLoop envA port ls stA) = failureOf (helpLoop envB port ls stB) := by
  intro ls
  induction ls with
  | nil => intro stA stB _; rfl
  | cons l rest ih =>
    intro stA stB hd
    unfold helpLoop
    rw [hd, hrr]
    cases ht : helpText stB.domain port l with
    | none => rfl
    | some text =>
      simp only []
      cases hr : envB.newRR text with
      | error err => rfl
      | ok r =>
        simp only []
        exact ih _ _ hd

theorem prepared_help (ko : Koanf) (env : Env) (fs : FS) :
    (prepared ko env fs).help = (enabledSvcs ko).map (fun s => (s.description, s.format)) := by
  have h := (prepared_extends ko env fs).2.1
  rw [h]
  simp only [St.init, contributions, List.nil_append]
  induction enabledSvcs ko with
  | nil => rfl
  | cons s rest ih => rw [List.flatMap_cons, ih]; cases s <;> rfl

theorem prepared_mux (ko : Koanf) (env : Env) (fs : FS) :
    (prepared ko env fs).mux = (enabledSvcs ko).map (fun s => (s.name ++ ".", s.handler)) := by
  have h := (prepared_extends ko env fs).1
  rw [h]
  simp only [St.init, contributions, List.nil_append]
  induction enabledSvcs ko with
  | nil => rfl
  | cons s rest ih => rw [List.flatMap_cons, ih]; cases s <;> rfl

theorem prepared_domain (ko : Koanf) (env : Env) (fs : FS) :
    (prepared ko env fs).domain = ko.string "server.domain" :=
  (prepared_extends ko env fs).2.2.2.2.1

/-- A completed startup, field by field. -/
theorem main_ok {ko : Koanf} {env : Env} {fs : FS} {st : St} (h : main ko env fs = .ok st) :
    ko.string "server.domain" ≠ "" ∧ fxFailure ko = none ∧ dictFailure ko = none
      ∧ ko.string "server.address" ≠ ""
      ∧ List.Forall₂
          (fun s r => env.newRR
            (recordText (ko.string "server.domain") (portOf (ko.string "server.address")) s)
              = .ok r)
          (enabledSvcs ko) st.helpRRs
      ∧ st.mux = (enabledSvcs ko).map (fun s => (s.name ++ ".", s.handler))
          ++ [("help.", .handleHelp), (".", .handleDefault)]
      ∧ st.services = (contributions ko env fs (enabledSvcs ko)).2.2.1
      ∧ st.world.events = (contributions ko env fs (enabledSvcs ko)).2.2.2
          ++ (enabledSvcs ko).map (fun s => Event.newRR
            (recordText (ko.string "server.domain") (portOf (ko.string "server.address")) s))
          ++ [.handleFunc "help.", .handleFunc "."]
      ∧ st.domain = ko.string "server.domain" := by
  rw [main_eq] at h
  unfold startup at h
  by_cases hd : ko.string "server.domain" = ""
  · simp [hd] at h
  · simp only [hd, if_false] at h
    cases hfx : fxFailure ko with
    | some f => rw [hfx] at h; cases h
    | none =>
      rw [hfx] at h
      cases hdict : dictFailure ko with
      | some f => rw [hdict] at h; cases h
      | none =>
        rw [hdict] at h
        by_cases ha : ko.string "server.address" = ""
        · simp [ha] at h
        · simp only [ha, if_false] at h
          rw [prepared_help] at h
          cases hl : helpLoop env (portOf (ko.string "server.address"))
              ((enabledSvcs ko).map (fun s => (s.description, s.format)))
              (prepared ko env fs) with
          | error x => rw [hl] at h; cases h
          | ok st1 =>
            rw [hl] at h
            cases h
            obtain ⟨rs, h1, h2, h3, h4, h5, h6, _, _⟩ := helpLoop_ok _ _ _ _ _ hl
            have hp := prepared_extends ko env fs
            rw [prepared_domain] at h1 h3
            have f6 := fresh_ip ko (fresh_dict ko env (fresh_fx ko env (fresh_dice ko env
              (fresh_pi ko (fresh_rand ko env (fresh_init ko fs))))))
            have hk1 : "help." ∉ st1.mux.map Prod.fst := by
              rw [h4]; intro hh; have := f6.2 _ hh; revert this; decide
            have hk2 : "." ∉ (muxSet st1.mux "help." Handler.handleHelp).map Prod.fst := by
              rw [muxSet_fresh _ _ _ hk1, h4]
              intro hh
              simp only [List.map_append, List.mem_append, List.map_cons, List.map_nil,
                List.mem_singleton] at hh
              rcases hh with hh | hh
              · have := f6.2 _ hh; revert this; decide
              · revert hh; decide
            refine ⟨hd, rfl, rfl, ha, ?_, ?_, ?_, ?_, ?_⟩
            · have : st1.helpRRs = rs := by rw [h2, hp.2.2.2.2.2.1]; rfl
              show List.Forall₂ _ _ st1.helpRRs
              rw [this]; exact h1
            · show muxSet (muxSet st1.mux (CanonicalName "help.") _) (CanonicalName ".") _ = _
              rw [canonical_labels.2.2.2.2.2.2.1, canonical_labels.2.2.2.2.2.2.2,
                muxSet_fresh _ _ _ hk2, muxSet_fresh _ _ _ hk1, h4, prepared_mux]
              simp
            · show st1.services = _
              rw [h5, hp.2.2.1]; rfl
            · show ((st1.world.emit _).emit _).events = _
              simp only [World.emit, h3, hp.2.2.2.1, St.init, List.nil_append,
                List.append_assoc, List.cons_append]
            · show st1.domain = _
              rw [h6, prepared_domain]

theorem indexByte_none (l : List Char) (c : Char) (h : c ∉ l) : indexByte l c = none := by
  induction l with
  | nil => rfl
  | cons x xs ih =>
    have h1 : x ≠ c := fun hh => h (by simp [hh])
    have h2 : c ∉ xs := fun hh => h (List.mem_cons_of_mem _ hh)
    simp [indexByte, h1, ih h2]

theorem lastIndexByte_none (l : List Char) (c : Char) (h : c ∉ l) :
    lastIndexByte l c = none := by
  induction l with
  | nil => rfl
  | cons x xs ih =>
    have h1 : x ≠ c := fun hh => h (by simp [hh])
    have h2 : c ∉ xs := fun hh => h (List.mem_cons_of_mem _ hh)
    simp [lastIndexByte, h1, ih h2]

theorem lastIndexByte_append (a b : List Char) (c : Char) (h : c ∉ b) :
    lastIndexByte (a ++ c :: b) c = some a.length := by
  induction a with
  | nil => simp [lastIndexByte, lastIndexByte_none b c h]
  | cons x xs ih => simp [lastIndexByte, ih]

/-- For an address `host:port` with no colon or bracket inside host or port, the port
put in the help records is `port`. -/
theorem portOf_host_port (host port : String)
    (hh : ∀ c ∈ host.data, c ≠ ':' ∧ c ≠ '[' ∧ c ≠ ']')
    (hp : ∀ c ∈ port.data, c ≠ ':' ∧ c ≠ '[' ∧ c ≠ ']') :
    portOf (host ++ ":" ++ port) = port := by
  have hdata : (host ++ ":" ++ port).data = host.data ++ ':' :: port.data := by
    simp [String.data_append]
  have hc1 : ':' ∉ port.data := fun h => (hp _ h).1 rfl
  have hc2 : ':' ∉ host.data := fun h => (hh _ h).1 rfl
  have hb1 : '[' ∉ host.data ++ ':' :: port.data := by
    intro h
    simp only [List.mem_append, List.mem_cons] at h
    rcases h with h | h | h
    · exact (hh _ h).2.1 rfl
    · revert h; decide
    · exact (hp _ h).2.1 rfl
  have hb2 : ']' ∉ host.data ++ ':' :: port.data := by
    intro h
    simp only [List.mem_append, List.mem_cons] at h
    rcases h with h | h | h
    · exact (hh _ h).2.2 rfl
    · revert h; decide
    · exact (hp _ h).2.2 rfl
  have hhead : (host.data ++ ':' :: port.data).head? ≠ some '[' := by
    intro h
    have := List.mem_of_mem_head? h
    exact hb1 this
  unfold portOf SplitHostPort
  simp only [hdata, lastIndexByte_append _ _ _ hc1, hhead, if_false, List.take_left',
    indexByte_none _ _ hc2, Option.isSome_none, Bool.false_eq_true, List.drop_zero,
    indexByte_none _ _ hb1, indexByte_none _ _ hb2]
  have hdrop : List.drop (host.data.length + 1) (host.data ++ ':' :: port.data) = port.data := by
    rw [show host.data ++ ':' :: port.data = (host.data ++ [':']) ++ port.data from by simp]
    exact List.drop_left' (by simp)
  rw [hdrop]

theorem ok_of_no_failure {σ : Type} (r : Run σ) (h : failureOf r = none) :
    r = .ok (reached r) := by
  cases r with
  | error x => cases h
  | ok st => rfl

theorem newRRTexts_contributions (ko : Koanf) (env : Env) (fs : FS) (l : List Svc) :
    newRRTexts (contributions ko env fs l).2.2.2 = [] := by
  simp only [contributions]
  induction l with
  | nil => rfl
  | cons s rest ih =>
    rw [List.flatMap_cons]
    unfold newRRTexts at ih ⊢
    rw [List.filterMap_append, ih, List.append_nil]
    cases s <;> try rfl
    simp only [contribution, fxRestore]
    split
    · split
      · rfl
      · rfl
      · rename_i b _
        cases (env.fxLoad (env.fxNew (ko.duration "fx.refresh_interval")) b).2 <;> rfl
    · rfl

theorem mem_enabledSvcs (ko : Koanf) (s : Svc) :
    s ∈ enabledSvcs ko ↔ ko.bool (s.name ++ ".enabled") = true := by
  unfold enabledSvcs allSvcs
  rw [List.mem_filter]
  constructor
  · intro h; exact h.2
  · intro h; exact ⟨by cases s <;> simp, h⟩

/-- C6: for every configuration with which `main` completes the help loop, the help
record set `h.help` holds, in the fixed order rand, pi, dice, fx, dict, ip, exactly one
record for each service whose `enabled` flag is set (the record `dns.NewRR` makes of
that service's text) and none for a service whose flag is not set; its length is the
number of enabled services. -/
theorem help_one_record_per_enabled_service (ko : Koanf) (env : Env) (fs : FS) (st : St)
    (h : main ko env fs = .ok st) :
    List.Forall₂
        (fun s r => env.newRR
          (recordText (ko.string "server.domain") (portOf (ko.string "server.address")) s)
            = .ok r)
        (enabledSvcs ko) st.helpRRs
      ∧ (∀ s : Svc, s ∈ enabledSvcs ko ↔ ko.bool (s.name ++ ".enabled") = true)
      ∧ (enabledSvcs ko).Nodup
      ∧ List.Sublist (enabledSvcs ko) [Svc.rand, Svc.pi, Svc.dice, Svc.fx, Svc.dict, Svc.ip]
      ∧ st.helpRRs.length
          = [Svc.rand, Svc.pi, Svc.dice, Svc.fx, Svc.dict, Svc.ip].countP
              (fun s => ko.bool (s.name ++ ".enabled")) := by
  obtain ⟨_, _, _, _, h5, _⟩ := main_ok h
  have hsub : List.Sublist (enabledSvcs ko) allSvcs := List.filter_sublist _
  refine ⟨h5, mem_enabledSvcs ko, hsub.nodup (by decide), hsub, ?_⟩
  rw [← h5.length_eq, List.countP_eq_length_filter]
  rfl

theorem help_one_record_per_enabled_service_witness :
    List.Forall₂
        (fun s r => envDemo.newRR
          (recordText (koDemo.string "server.domain")
            (portOf (koDemo.string "server.address")) s) = .ok r)
        (enabledSvcs koDemo) (reached (main koDemo envDemo fsDemo)).helpRRs
      ∧ (∀ s : Svc, s ∈ enabledSvcs koDemo ↔ koDemo.bool (s.name ++ ".enabled") = true)
      ∧ (enabledSvcs koDemo).Nodup
      ∧ List.Sublist (enabledSvcs koDemo)
          [Svc.rand, Svc.pi, Svc.dice, Svc.fx, Svc.dict, Svc.ip]
      ∧ (reached (main koDemo envDemo fsDemo)).helpRRs.length
          = [Svc.rand, Svc.pi, Svc.dice, Svc.fx, Svc.dict, Svc.ip].countP
              (fun s => koDemo.bool (s.name ++ ".enabled")) :=
  help_one_record_per_enabled_service koDemo envDemo fsDemo
    (reached (main koDemo envDemo fsDemo)) (ok_of_no_failure _ (by decide))

/-- C7: for every configuration with which startup completes, the texts `main` hands to
`dns.NewRR` are, for the enabled services in order, `help. 86400 TXT "<description>"
"<example>"`, where `<example>` is the service's template with its first `%s` replaced
by the configured server domain (`h.domain`) and its second by the port, the rest of
the template being copied; each template is such a text with exactly two placeholders.
The port is the port part of `server.address`: `5354` for `:5354` and for
`0.0.0.0:5354`, and `port` for every address `host:port` without brackets. -/
theorem help_record_text (ko : Koanf) (env : Env) (fs : FS) (st : St)
    (h : main ko env fs = .ok st) :
    newRRTexts st.world.events
        = (enabledSvcs ko).map (fun s =>
            "help. 86400 TXT \"" ++ s.description ++ "\" \""
              ++ s.template.1 ++ ko.string "server.domain" ++ s.template.2.1
              ++ portOf (ko.string "server.address") ++ s.template.2.2 ++ "\"")
      ∧ st.domain = ko.string "server.domain"
      ∧ (∀ s : Svc,
          s.format = s.template.1 ++ "%s" ++ s.template.2.1 ++ "%s" ++ s.template.2.2
            ∧ '%' ∉ s.template.1.data ∧ '%' ∉ s.template.2.1.data
            ∧ '%' ∉ s.template.2.2.data)
      ∧ portOf ":5354" = "5354" ∧ portOf "0.0.0.0:5354" = "5354"
      ∧ (∀ host port : String,
          (∀ c ∈ host.data, c ≠ ':' ∧ c ≠ '[' ∧ c ≠ ']') →
          (∀ c ∈ port.data, c ≠ ':' ∧ c ≠ '[' ∧ c ≠ ']') →
          portOf (host ++ ":" ++ port) = port) := by
  obtain ⟨_, _, _, _, _, _, _, h8, h9⟩ := main_ok h
  refine ⟨?_, h9, ?_, by decide, by decide, portOf_host_port⟩
  · rw [h8]
    unfold newRRTexts
    rw [List.filterMap_append, List.filterMap_append]
    have h0 := newRRTexts_contributions ko env fs (enabledSvcs ko)
    unfold newRRTexts at h0
    rw [h0]
    simp only [List.nil_append, List.filterMap_cons, List.filterMap_nil, List.append_nil]
    induction enabledSvcs ko with
    | nil => rfl
    | cons s rest ih => simp only [List.map_cons, List.filterMap_cons, ih]; rfl
  · intro s
    obtain ⟨a, b, c, d, _⟩ := Svc.format_eq s
    exact ⟨a, b, c, d⟩

theorem help_record_text_witness :
    newRRTexts (reached (main koDemo envDemo fsDemo)).world.events
        = (enabledSvcs koDemo).map (fun s =>
            "help. 86400 TXT \"" ++ s.description ++ "\" \""
              ++ s.template.1 ++ koDemo.string "server.domain" ++ s.template.2.1
              ++ portOf (koDemo.string "server.address") ++ s.template.2.2 ++ "\"")
      ∧ (reached (main koDemo envDemo fsDemo)).domain = koDemo.string "server.domain"
      ∧ (∀ s : Svc,
          s.format = s.template.1 ++ "%s" ++ s.template.2.1 ++ "%s" ++ s.template.2.2
            ∧ '%' ∉ s.template.1.data ∧ '%' ∉ s.template.2.1.data
            ∧ '%' ∉ s.template.2.2.data)
      ∧ portOf ":5354" = "5354" ∧ portOf "0.0.0.0:5354" = "5354"
      ∧ (∀ host port : String,
          (∀ c ∈ host.data, c ≠ ':' ∧ c ≠ '[' ∧ c ≠ ']') →
          (∀ c ∈ port.data, c ≠ ':' ∧ c ≠ '[' ∧ c ≠ ']') →
          portOf (host ++ ":" ++ port) = port) :=
  help_record_text koDemo envDemo fsDemo (reached (main koDemo envDemo fsDemo))
    (ok_of_no_failure _ (by decide))

theorem labelSuffixes_under :
    ∀ (q : List Char) (esc : Bool) (c : List Char),
      c ∈ labelSuffixes esc q → List.IsSuffix ('.' :: c) q := by
  intro q
  induction q with
  | nil => intro esc c h; simp [labelSuffixes] at h
  | cons x rest ih =>
    intro esc c h
    cases rest with
    | nil => simp [labelSuffixes] at h
    | cons d rest1 =>
      unfold labelSuffixes at h
      split at h
      · rename_i hdot
        simp only [List.mem_cons] at h
        have hx : x = '.' := by
          simp only [Bool.and_eq_true, decide_eq_true_eq] at hdot
          exact hdot.1
        rcases h with h | h
        · subst h; subst hx
          exact List.suffix_refl _
        · exact (ih false c h).trans (List.suffix_cons _ _)
      · exact (ih _ c h).trans (List.suffix_cons _ _)

theorem matchLoop_default (z : Mux) (t : Nat) :
    ∀ (cands : List (List Char)) (handler : Option Handler),
      (∀ c ∈ cands, muxGet z (String.mk c) = none
        ∨ muxGet z (String.mk c) = some Handler.handleDefault) →
      (handler = none ∨ handler = some Handler.handleDefault) →
      matchLoop z t cands handler = .inl Handler.handleDefault
        ∨ matchLoop z t cands handler = .inr none
        ∨ matchLoop z t cands handler = .inr (some Handler.handleDefault) := by
  intro cands
  induction cands with
  | nil =>
    intro handler _ hh
    rcases hh with rfl | rfl
    · exact Or.inr (Or.inl rfl)
    · exact Or.inr (Or.inr rfl)
  | cons c rest ih =>
    intro handler hc hh
    unfold matchLoop
    rcases hc c (List.mem_cons_self _ _) with h1 | h1
    · rw [h1]
      exact ih handler (fun c1 hc1 => hc c1 (List.mem_cons_of_mem _ hc1)) hh
    · rw [h1]
      by_cases ht : t ≠ TypeDS
      · simp only [if_pos ht]
        exact Or.inl trivial
      · simp only [if_neg ht]
        exact ih _ (fun c1 hc1 => hc c1 (List.mem_cons_of_mem _ hc1)) (Or.inr rfl)

theorem muxMatch_some (z : Mux) (q : String) (t : Nat)
    (hroot : muxGet z "." = some Handler.handleDefault) : ∃ hd, muxMatch z q t = some hd := by
  unfold muxMatch
  simp only []
  cases matchLoop z t ((CanonicalName q).data :: labelSuffixes false (CanonicalName q).data)
      none with
  | inl h => exact ⟨h, rfl⟩
  | inr handler => simp only [hroot]; exact ⟨_, rfl⟩

theorem lookup_append_fresh (a b : Mux) (k : String) (h : k ∉ a.map Prod.fst) :
    (a ++ b).lookup k = b.lookup k := by
  induction a with
  | nil => rfl
  | cons e rest ih =>
    obtain ⟨k1, v1⟩ := e
    have h1 : k ≠ k1 := fun hh => h (by simp [hh])
    have h2 : k ∉ rest.map Prod.fst := fun hh => h (by simp [hh])
    have h3 : (k == k1) = false := by simpa using h1
    simp only [List.cons_append, List.lookup, h3]
    exact ih h2

theorem svc_labels_fresh (ko : Koanf) :
    "help." ∉ ((enabledSvcs ko).map (fun s => (s.name ++ ".", s.handler))).map Prod.fst
      ∧ "." ∉ ((enabledSvcs ko).map (fun s => (s.name ++ ".", s.handler))).map Prod.fst := by
  constructor <;>
  · intro h
    simp only [List.map_map, List.mem_map, Function.comp] at h
    obtain ⟨s, _, hs⟩ := h
    revert hs
    cases s <;> decide

/-- C9: for every configuration with which startup reaches the listener, whatever the
enabled flags, the router binds the default handler to the root `.` and the help
handler to `help.`; dispatch then selects a handler for every query name and type, and
a query name that lies under the zone label of no enabled service and not under
`help.` goes to the default handler.  Zones are matched by whole labels: `foo.bogus`
and `mydice` (which ends in the letters of `dice`) go to the default handler under
every configuration. -/
theorem unmatched_queries_reach_default (ko : Koanf) (env : Env) (fs : FS) (st : St)
    (h : main ko env fs = .ok st) :
    muxGet st.mux "." = some Handler.handleDefault
      ∧ muxGet st.mux "help." = some Handler.handleHelp
      ∧ (∀ (q : String) (t : Nat), ∃ hd, muxMatch st.mux q t = some hd)
      ∧ (∀ (q : String) (t : Nat),
          (∀ s : Svc, ko.bool (s.name ++ ".enabled") = true →
            ¬ Under (CanonicalName q).data (s.name ++ ".").data) →
          ¬ Under (CanonicalName q).data "help.".data →
          muxMatch st.mux q t = some Handler.handleDefault)
      ∧ (∀ t : Nat, muxMatch st.mux "foo.bogus" t = some Handler.handleDefault)
      ∧ (∀ t : Nat, muxMatch st.mux "mydice" t = some Handler.handleDefault) := by
  obtain ⟨_, _, _, _, _, hmux, _⟩ := main_ok h
  obtain ⟨hf1, hf2⟩ := svc_labels_fresh ko
  have hroot : muxGet st.mux "." = some Handler.handleDefault := by
    unfold muxGet
    rw [hmux, lookup_append_fresh _ _ _ hf2]
    decide
  have hhelp : muxGet st.mux "help." = some Handler.handleHelp := by
    unfold muxGet
    rw [hmux, lookup_append_fresh _ _ _ hf1]
    decide
  have hgen : ∀ (q : String) (t : Nat),
      (∀ s : Svc, ko.bool (s.name ++ ".enabled") = true →
        ¬ Under (CanonicalName q).data (s.name ++ ".").data) →
      ¬ Under (CanonicalName q).data "help.".data →
      muxMatch st.mux q t = some Handler.handleDefault := by
    intro q t hsvc hnh
    have hc : ∀ c ∈ (CanonicalName q).data :: labelSuffixes false (CanonicalName q).data,
        muxGet st.mux (String.mk c) = none
          ∨ muxGet st.mux (String.mk c) = some Handler.handleDefault := by
      intro c hcm
      have hunder : Under (CanonicalName q).data c := by
        rcases List.mem_cons.mp hcm with h1 | h1
        · exact Or.inl h1.symm
        · exact Or.inr (labelSuffixes_under _ _ _ h1)
      cases hl : muxGet st.mux (String.mk c) with
      | none => exact Or.inl rfl
      | some hd =>
        right
        unfold muxGet at hl
        rw [hmux] at hl
        by_cases hin : String.mk c ∈
            ((enabledSvcs ko).map (fun s => (s.name ++ ".", s.handler))).map Prod.fst
        · exfalso
          simp only [List.map_map, List.mem_map, Function.comp] at hin
          obtain ⟨s, hs, hcs⟩ := hin
          have hc2 : c = (s.name ++ ".").data := by rw [hcs]
          exact hsvc s ((mem_enabledSvcs ko s).mp hs) (hc2 ▸ hunder)
        · rw [lookup_append_fresh _ _ _ hin] at hl
          by_cases hch : String.mk c = "help."
          · exfalso
            have hc2 : c = "help.".data := by rw [← hch]
            exact hnh (hc2 ▸ hunder)
          · have h3 : (String.mk c == "help.") = false := by simpa using hch
            simp only [List.lookup, h3] at hl
            split at hl
            · cases hl; rfl
            · cases hl
    unfold muxMatch
    simp only []
    rcases matchLoop_default st.mux t _ none hc (Or.inl rfl) with h1 | h1 | h1
    · rw [h1]
    · rw [h1]; simp only [hroot]
    · rw [h1]; simp only [hroot]
  refine ⟨hroot, hhelp, fun q t => muxMatch_some _ q t hroot, hgen, ?_, ?_⟩
  · intro t
    exact hgen "foo.bogus" t (fun s _ => by cases s <;> decide) (by decide)
  · intro t
    exact hgen "mydice" t (fun s _ => by cases s <;> decide) (by decide)

theorem unmatched_queries_reach_default_witness :
    muxGet (reached (main koDemo envDemo fsDemo)).mux "." = some Handler.handleDefault
      ∧ muxGet (reached (main koDemo envDemo fsDemo)).mux "help." = some Handler.handleHelp
      ∧ (∀ (q : String) (t : Nat),
          ∃ hd, muxMatch (reached (main koDemo envDemo fsDemo)).mux q t = some hd)
      ∧ (∀ (q : String) (t : Nat),
          (∀ s : Svc, koDemo.bool (s.name ++ ".enabled") = true →
            ¬ Under (CanonicalName q).data (s.name ++ ".").data) →
          ¬ Under (CanonicalName q).data "help.".data →
          muxMatch (reached (main koDemo envDemo fsDemo)).mux q t
            = some Handler.handleDefault)
      ∧ (∀ t : Nat, muxMatch (reached (main koDemo envDemo fsDemo)).mux "foo.bogus" t
          = some Handler.handleDefault)
      ∧ (∀ t : Nat, muxMatch (reached (main koDemo envDemo fsDemo)).mux "mydice" t
          = some Handler.handleDefault) :=
  unmatched_queries_reach_default koDemo envDemo fsDemo
    (reached (main koDemo envDemo fsDemo)) (ok_of_no_failure _ (by decide))

theorem mux_contributions (ko : Koanf) (env : Env) (fs : FS) (l : List Svc) :
    (contributions ko env fs l).1 = l.map (fun s => (s.name ++ ".", s.handler)) := by
  simp only [contributions]
  induction l with
  | nil => rfl
  | cons s rest ih => rw [List.flatMap_cons, ih]; cases s <;> rfl

theorem names_contributions (ko : Koanf) (env : Env) (fs : FS) (l : List Svc) :
    (contributions ko env fs l).2.2.1.map Prod.fst
      = (l.filter Svc.inRegistry).map Svc.name := by
  simp only [contributions]
  induction l with
  | nil => rfl
  | cons s rest ih =>
    rw [List.flatMap_cons, List.map_append, ih]
    cases s <;> rfl

theorem fxRestore_events (ko : Koanf) (env : Env) (fs : FS) (d : Int) :
    ∀ ev ∈ (fxRestore ko env fs d).2,
      (∃ f a, ev = Event.logf f a)
        ∨ (ev = Event.readFile (ko.string "fx.snapshot_file")
            ∧ ko.bool "fx.snapshot_enabled" = true)
        ∨ (∃ b, ev = Event.load "fx" b ∧ ko.bool "fx.snapshot_enabled" = true
            ∧ ReadFile env.readFault fs (ko.string "fx.snapshot_file") = .ok b) := by
  intro ev hev
  unfold fxRestore at hev
  by_cases hs : ko.bool "fx.snapshot_enabled" = true
  · simp only [hs, if_true] at hev
    cases hread : ReadFile env.readFault fs (ko.string "fx.snapshot_file") with
    | error e =>
      rw [hread] at hev
      cases e with
      | pathError msg =>
        simp only [List.mem_singleton] at hev
        exact Or.inr (Or.inl ⟨hev, hs⟩)
      | other msg =>
        simp only [List.mem_cons, List.mem_singleton, List.not_mem_nil, or_false] at hev
        rcases hev with hev | hev
        · exact Or.inr (Or.inl ⟨hev, hs⟩)
        · exact Or.inl ⟨_, _, hev⟩
    | ok b =>
      rw [hread] at hev
      simp only [List.mem_append, List.mem_cons, List.mem_singleton, List.not_mem_nil,
        or_false] at hev
      rcases hev with (hev | hev) | hev
      · exact Or.inr (Or.inl ⟨hev, hs⟩)
      · exact Or.inr (Or.inr ⟨b, hev, hs, rfl⟩)
      · left
        cases hl : (env.fxLoad (env.fxNew d) b).2 with
        | none => rw [hl] at hev; simp at hev
        | some err =>
          rw [hl] at hev
          simp only [List.mem_singleton] at hev
          exact ⟨_, _, hev⟩
  · simp [hs] at hev

/-- The calls of the service blocks: registrations, bindings, and the restore of `fx`. -/
theorem contributions_events (ko : Koanf) (env : Env) (fs : FS) (l : List Svc) :
    ∀ ev ∈ (contributions ko env fs l).2.2.2,
      (∃ n, ev = Event.register n) ∨ (∃ p, ev = Event.handleFunc p)
        ∨ (Svc.fx ∈ l ∧ ev ∈ (fxRestore ko env fs (ko.duration "fx.refresh_interval")).2) := by
  intro ev hev
  simp only [contributions, List.mem_flatMap] at hev
  obtain ⟨s, hs, hev⟩ := hev
  cases s with
  | fx =>
    simp only [contribution, List.mem_append, List.mem_cons, List.mem_singleton,
      List.not_mem_nil, or_false] at hev
    rcases hev with hev | hev | hev
    · exact Or.inr (Or.inr ⟨hs, hev⟩)
    · exact Or.inl ⟨_, hev⟩
    · exact Or.inr (Or.inl ⟨_, hev⟩)
  | rand =>
    simp only [contribution, List.mem_cons, List.mem_singleton, List.not_mem_nil,
      or_false] at hev
    rcases hev with hev | hev
    · exact Or.inl ⟨_, hev⟩
    · exact Or.inr (Or.inl ⟨_, hev⟩)
  | dice =>
    simp only [contribution, List.mem_cons, List.mem_singleton, List.not_mem_nil,
      or_false] at hev
    rcases hev with hev | hev
    · exact Or.inl ⟨_, hev⟩
    · exact Or.inr (Or.inl ⟨_, hev⟩)
  | dict =>
    simp only [contribution, List.mem_cons, List.mem_singleton, List.not_mem_nil,
      or_false] at hev
    rcases hev with hev | hev
    · exact Or.inl ⟨_, hev⟩
    · exact Or.inr (Or.inl ⟨_, hev⟩)
  | pi =>
    simp only [contribution, List.mem_singleton] at hev
    exact Or.inr (Or.inl ⟨_, hev⟩)
  | ip =>
    simp only [contribution, List.mem_singleton] at hev
    exact Or.inr (Or.inl ⟨_, hev⟩)

theorem boundPatterns_contributions (ko : Koanf) (env : Env) (fs : FS) (l : List Svc) :
    boundPatterns (contributions ko env fs l).2.2.2 = l.map (fun s => s.name ++ ".") := by
  simp only [contributions]
  induction l with
  | nil => rfl
  | cons s rest ih =>
    rw [List.flatMap_cons]
    unfold boundPatterns at ih ⊢
    rw [List.filterMap_append, ih]
    have hfx : List.filterMap (fun ev => match ev with
        | Event.handleFunc p => some p
        | _ => none) (fxRestore ko env fs (ko.duration "fx.refresh_interval")).2 = [] := by
      rw [List.filterMap_eq_nil_iff]
      intro ev hev
      rcases fxRestore_events ko env fs _ ev hev with ⟨f, a, rfl⟩ | ⟨rfl, _⟩ | ⟨b, rfl, _⟩ <;> rfl
    cases s <;> try rfl
    simp only [contribution, List.filterMap_append, hfx]
    rfl

theorem boundPatterns_newRR (texts : List String) :
    boundPatterns (texts.map Event.newRR) = [] := by
  unfold boundPatterns
  rw [List.filterMap_eq_nil_iff]
  intro ev hev
  obtain ⟨t, _, rfl⟩ := List.mem_map.mp hev
  rfl

/-- The state `main` reaches, completed or not: the contributions of some of the
services, in order, then `dns.NewRR` calls, then possibly the two final bindings. -/
theorem reached_shape (ko : Koanf) (env : Env) (fs : FS) :
    ∃ (l : List Svc) (texts : List String) (final : Bool),
      List.Sublist l allSvcs
        ∧ (reached (main ko env fs)).services = (contributions ko env fs l).2.2.1
        ∧ (reached (main ko env fs)).world.events
            = (contributions ko env fs l).2.2.2 ++ texts.map Event.newRR
              ++ (if final then [Event.handleFunc "help.", Event.handleFunc "."] else [])
        ∧ (reached (main ko env fs)).mux
            = (contributions ko env fs l).1
              ++ (if final then [("help.", Handler.handleHelp), (".", Handler.handleDefault)]
                  else []) := by
  have f0 := fresh_init ko fs
  have f1 := fresh_rand ko env f0
  have f2 := fresh_pi ko f1
  have f3 := fresh_dice ko env f2
  have e1 := extends_rand ko env fs f0 (by decide)
  have e2 := extends_pi ko env fs f1 (by decide)
  have e3 := extends_dice ko env fs f2 (by decide)
  have e4 := extends_fx ko env fs f3 (by decide)
    (by rw [e3.2.2.2.2.2.2, e2.2.2.2.2.2.2, e1.2.2.2.2.2.2]; rfl)
  have hp := prepared_extends ko env fs
  have hsub : List.Sublist (enabledSvcs ko) allSvcs := List.filter_sublist _
  rw [main_eq]
  unfold startup
  by_cases hd : ko.string "server.domain" = ""
  · simp only [hd, if_true]
    exact ⟨[], [], false, List.nil_sublist _, rfl, rfl, rfl⟩
  · simp only [hd, if_false]
    cases hfx : fxFailure ko with
    | some f =>
      simp only []
      have e := extends_trans e1 (extends_trans e2 e3)
      refine ⟨(if ko.bool "rand.enabled" then [Svc.rand] else [])
          ++ ((if ko.bool "pi.enabled" then [Svc.pi] else [])
          ++ (if ko.bool "dice.enabled" then [Svc.dice] else [])), [], false, ?_, ?_, ?_, ?_⟩
      · cases ko.bool "rand.enabled" <;> cases ko.bool "pi.enabled"
          <;> cases ko.bool "dice.enabled" <;> decide
      · simp only [contributions_append, reached]
        rw [e.2.2.1]; rfl
      · simp only [contributions_append, reached]
        rw [e.2.2.2.1]; simp [St.init]
      · simp only [contributions_append, reached]
        rw [e.1]; simp [St.init]
    | none =>
      simp only []
      cases hdict : dictFailure ko with
      | some f =>
        simp only []
        have e := extends_trans e1 (extends_trans e2 (extends_trans e3 e4))
        refine ⟨(if ko.bool "rand.enabled" then [Svc.rand] else [])
            ++ ((if ko.bool "pi.enabled" then [Svc.pi] else [])
            ++ ((if ko.bool "dice.enabled" then [Svc.dice] else [])
            ++ (if ko.bool "fx.enabled" then [Svc.fx] else []))), [], false, ?_, ?_, ?_, ?_⟩
        · cases ko.bool "rand.enabled" <;> cases ko.bool "pi.enabled"
            <;> cases ko.bool "dice.enabled" <;> cases ko.bool "fx.enabled" <;> decide
        · simp only [contributions_append, reached]
          rw [e.2.2.1]; rfl
        · simp only [contributions_append, reached]
          rw [e.2.2.2.1]; simp [St.init]
        · simp only [contributions_append, reached]
          rw [e.1]; simp [St.init]
      | none =>
        simp only []
        by_cases ha : ko.string "server.address" = ""
        · simp only [ha, if_true, reached]
          refine ⟨enabledSvcs ko, [], false, hsub, ?_, ?_, ?_⟩
          · rw [hp.2.2.1]; rfl
          · rw [hp.2.2.2.1]; simp [St.init]
          · rw [hp.1]; simp [St.init]
        · simp only [ha, if_false]
          obtain ⟨texts, h1, h2, h3⟩ := helpLoop_reached env
            (portOf (ko.string "server.address")) (prepared ko env fs).help (prepared ko env fs)
          cases hl : helpLoop env (portOf (ko.string "server.address"))
              (prepared ko env fs).help (prepared ko env fs) with
          | error x =>
            rw [hl] at h1 h2 h3
            simp only [reached] at h1 h2 h3 ⊢
            refine ⟨enabledSvcs ko, texts, false, hsub, ?_, ?_, ?_⟩
            · rw [h3, hp.2.2.1]; rfl
            · rw [h1, hp.2.2.2.1]; simp [St.init]
            · rw [h2, hp.1]; simp [St.init]
          | ok st1 =>
            rw [hl] at h1 h2 h3
            simp only [reached] at h1 h2 h3 ⊢
            have f6 := fresh_ip ko (fresh_dict ko env (fresh_fx ko env f3))
            have hk1 : "help." ∉ st1.mux.map Prod.fst := by
              rw [h2]; intro hh; have := f6.2 _ hh; revert this; decide
            have hk2 : "." ∉ (muxSet st1.mux "help." Handler.handleHelp).map Prod.fst := by
              rw [muxSet_fresh _ _ _ hk1, h2]
              intro hh
              simp only [List.map_append, List.mem_append, List.map_cons, List.map_nil,
                List.mem_singleton] at hh
              rcases hh with hh | hh
              · have := f6.2 _ hh; revert this; decide
              · revert hh; decide
            refine ⟨enabledSvcs ko, texts, true, hsub, ?_, ?_, ?_⟩
            · show st1.services = _
              rw [h3, hp.2.2.1]; rfl
            · show ((st1.world.emit _).emit _).events = _
              simp only [World.emit, h1, hp.2.2.2.1, St.init, List.nil_append,
                List.append_assoc, List.cons_append, if_true]
            · show muxSet (muxSet st1.mux (CanonicalName "help.") _) (CanonicalName ".") _ = _
              rw [canonical_labels.2.2.2.2.2.2.1, canonical_labels.2.2.2.2.2.2.2,
                muxSet_fresh _ _ _ hk2, muxSet_fresh _ _ _ hk1, h2, hp.1]
              simp [St.init]

/-- C8: for every configuration, and whether startup completes or stops early, the
patterns `main` binds in the router before the listener starts are pairwise distinct
and each is bound at most once; they are, in order, among `rand.`, `pi.`, `dice.`,
`fx.`, `dict.`, `ip.`, `help.` and the root `.`.  The names put in the registry are
pairwise distinct, among `rand`, `dice`, `fx`, `dict`, and each registered name `n` owns
the zone label `n + "."`, bound to that service's handler; so no two services claim the
same zone label. -/
theorem zone_labels_distinct (ko : Koanf) (env : Env) (fs : FS) :
    List.Sublist (boundPatterns (reached (main ko env fs)).world.events)
        ["rand.", "pi.", "dice.", "fx.", "dict.", "ip.", "help.", "."]
      ∧ (boundPatterns (reached (main ko env fs)).world.events).Nodup
      ∧ List.Sublist ((reached (main ko env fs)).services.map Prod.fst)
          ["rand", "dice", "fx", "dict"]
      ∧ ((reached (main ko env fs)).services.map Prod.fst).Nodup
      ∧ ((reached (main ko env fs)).mux.map Prod.fst).Nodup
      ∧ (∀ n ∈ (reached (main ko env fs)).services.map Prod.fst,
          (n ++ ".", Handler.service n) ∈ (reached (main ko env fs)).mux
            ∧ n ++ "." ∈ boundPatterns (reached (main ko env fs)).world.events) := by
  obtain ⟨l, texts, final, hl, hs, he, hm⟩ := reached_shape ko env fs
  have hb : boundPatterns (reached (main ko env fs)).world.events
      = l.map (fun s => s.name ++ ".") ++ (if final then ["help.", "."] else []) := by
    rw [he]
    unfold boundPatterns
    rw [List.filterMap_append, List.filterMap_append]
    have h1 := boundPatterns_contributions ko env fs l
    have h2 := boundPatterns_newRR texts
    unfold boundPatterns at h1 h2
    rw [h1, h2]
    cases final <;> simp
  have hkeys : (reached (main ko env fs)).mux.map Prod.fst
      = l.map (fun s => s.name ++ ".") ++ (if final then ["help.", "."] else []) := by
    rw [hm, mux_contributions]
    cases final <;> simp [Function.comp]
  have hsubl : List.Sublist
      (l.map (fun s => s.name ++ ".") ++ (if final then ["help.", "."] else []))
      ["rand.", "pi.", "dice.", "fx.", "dict.", "ip.", "help.", "."] := by
    have h1 : List.Sublist (l.map (fun s => s.name ++ "."))
        (allSvcs.map (fun s => s.name ++ ".")) := hl.map _
    have h2 : List.Sublist (if final then ["help.", "."] else []) ["help.", "."] := by
      cases final <;> decide
    exact h1.append h2
  have hnames : (reached (main ko env fs)).services.map Prod.fst
      = (l.filter Svc.inRegistry).map Svc.name := by
    rw [hs, names_contributions]
  have hsubn : List.Sublist ((l.filter Svc.inRegistry).map Svc.name)
      ["rand", "dice", "fx", "dict"] :=
    ((hl.filter _).map _ : List.Sublist _ ((allSvcs.filter Svc.inRegistry).map Svc.name))
  refine ⟨hb ▸ hsubl, hb ▸ hsubl.nodup (by decide), hnames ▸ hsubn,
    hnames ▸ hsubn.nodup (by decide), hkeys ▸ hsubl.nodup (by decide), ?_⟩
  · intro n hn
    rw [hnames] at hn
    obtain ⟨s, hsm, rfl⟩ := List.mem_map.mp hn
    obtain ⟨hsl, hreg⟩ := List.mem_filter.mp hsm
    constructor
    · rw [hm, mux_contributions]
      apply List.mem_append_left
      refine List.mem_map.mpr ⟨s, hsl, ?_⟩
      cases s <;> first | rfl | cases hreg
    · rw [hb]
      exact List.mem_append_left _ (List.mem_map.mpr ⟨s, hsl, rfl⟩)

/-- Whether, and how, startup fails depends on the configuration and on `dns.NewRR`
only: not on the disk, on read faults, on `Load` or on the constructors. -/
theorem main_failure (ko : Koanf) (envA envB : Env) (fsA fsB : FS)
    (hrr : envA.newRR = envB.newRR) :
    failureOf (main ko envA fsA) = failureOf (main ko envB fsB) := by
  rw [main_eq, main_eq]
  unfold startup
  by_cases hd : ko.string "server.domain" = ""
  · simp only [hd, if_true]; rfl
  · simp only [hd, if_false]
    cases fxFailure ko with
    | some f => rfl
    | none =>
      simp only []
      cases dictFailure ko with
      | some f => rfl
      | none =>
        simp only []
        by_cases ha : ko.string "server.address" = ""
        · simp only [ha, if_true]; rfl
        · simp only [ha, if_false]
          rw [prepared_help, prepared_help]
          have hfail := helpLoop_failure envA envB (portOf (ko.string "server.address")) hrr
            ((enabledSvcs ko).map (fun s => (s.description, s.format)))
            (prepared ko envA fsA) (prepared ko envB fsB)
            (by rw [prepared_domain, prepared_domain])
          revert hfail
          generalize helpLoop envA (portOf (ko.string "server.address"))
            ((enabledSvcs ko).map (fun s => (s.description, s.format)))
            (prepared ko envA fsA) = rA
          generalize helpLoop envB (portOf (ko.string "server.address"))
            ((enabledSvcs ko).map (fun s => (s.description, s.format)))
            (prepared ko envB fsB) = rB
          intro hfail
          cases rA <;> cases rB <;> exact hfail

theorem services_contributions (ko : Koanf) (env : Env) (fs : FS) (l : List Svc) (s : Svc)
    (hs : s ∈ l) :
    ∀ e ∈ (contribution ko env fs s).2.2.1, e ∈ (contributions ko env fs l).2.2.1 := by
  intro e he
  simp only [contributions, List.mem_flatMap]
  exact ⟨s, hs, he⟩

theorem load_in_trace {ko : Koanf} {env : Env} {fs : FS} {st : St}
    (h : main ko env fs = .ok st) (n : String) (b : Bytes)
    (hev : Event.load n b ∈ st.world.events) :
    n = "fx" ∧ ko.bool "fx.enabled" = true ∧ ko.bool "fx.snapshot_enabled" = true
      ∧ ReadFile env.readFault fs (ko.string "fx.snapshot_file") = .ok b := by
  obtain ⟨_, _, _, _, _, _, _, h8, _⟩ := main_ok h
  rw [h8] at hev
  simp only [List.mem_append, List.mem_map, List.mem_cons, List.mem_singleton,
    List.not_mem_nil, or_false] at hev
  rcases hev with (hev | ⟨s, _, hev⟩) | hev | hev
  · rcases contributions_events ko env fs _ _ hev with ⟨m, hm⟩ | ⟨p, hp⟩ | ⟨hfx, hin⟩
    · cases hm
    · cases hp
    · rcases fxRestore_events ko env fs _ _ hin with ⟨f, a, hf⟩ | ⟨hf, _⟩ | ⟨b1, hf, hs, hr⟩
      · cases hf
      · cases hf
      · cases hf
        exact ⟨rfl, by simpa using (mem_enabledSvcs ko Svc.fx).mp hfx, hs, hr⟩
  · cases hev
  · cases hev
  · cases hev

/-- C4: restore is never fatal.  For every service name with `snapshot_enabled` set and
a `snapshot_file` configured, `loadSnapshot` returns no data, without failing, whenever
reading the file fails, be it a missing file or any other error.  Whether and how
startup fails does not depend on the disk, on read faults or on what `Load` returns.
And when startup completes with the currency service enabled and snapshot-enabled: if
the read fails, no `Load` is called at all and the service is registered as its
constructor made it; if data is read, the service is registered as `Load` left it,
whether `Load` returned an error or not.  `Load` is never called for another service,
and `rand`, `dice` and `dict` are registered as constructed. -/
theorem restore_never_fatal (ko : Koanf) (env : Env) (fs : FS) :
    (∀ (name : String) (w : World) (e : ReadError),
        ko.bool (name ++ ".snapshot_enabled") = true →
        ko.string (name ++ ".snapshot_file") ≠ "" →
        ReadFile env.readFault w.fs (ko.string (name ++ ".snapshot_file")) = .error e →
        ∃ w1, loadSnapshot ko env name w = .ok (none, w1))
      ∧ (∀ (env1 : Env) (fs1 : FS), env1.newRR = env.newRR →
          failureOf (main ko env1 fs1) = failureOf (main ko env fs))
      ∧ (∀ st, main ko env fs = .ok st →
          (∀ n b, Event.load n b ∈ st.world.events → n = "fx")
            ∧ (ko.bool "rand.enabled" = true → ("rand", env.randomNew) ∈ st.services)
            ∧ (ko.bool "dice.enabled" = true → ("dice", env.diceNew) ∈ st.services)
            ∧ (ko.bool "dict.enabled" = true →
                ("dict", env.dictNew (ko.string "dict.wordnet_path")
                  (ko.int "dict.max_results")) ∈ st.services)
            ∧ (ko.bool "fx.enabled" = true → ko.bool "fx.snapshot_enabled" = true →
                ("fx.", Handler.service "fx") ∈ st.mux
                  ∧ (∀ e, ReadFile env.readFault fs (ko.string "fx.snapshot_file")
                        = .error e →
                      ("fx", env.fxNew (ko.duration "fx.refresh_interval")) ∈ st.services
                        ∧ ∀ n b, Event.load n b ∉ st.world.events)
                  ∧ (∀ b, ReadFile env.readFault fs (ko.string "fx.snapshot_file") = .ok b →
                      ("fx", (env.fxLoad (env.fxNew (ko.duration "fx.refresh_interval")) b).1)
                        ∈ st.services))) := by
  refine ⟨?_, fun env1 fs1 hrr => main_failure ko env1 env fs1 fs hrr, ?_⟩
  · intro name w e hs hf hread
    unfold loadSnapshot MustString
    simp only [hs, Bool.not_true, Bool.false_eq_true, if_false, hf, hread]
    cases e with
    | pathError msg => exact ⟨_, rfl⟩
    | other msg => exact ⟨_, rfl⟩
  · intro st h
    obtain ⟨_, _, _, _, _, hmux, hsv, _, _⟩ := main_ok h
    have hmem : ∀ s : Svc, ko.bool (s.name ++ ".enabled") = true →
        ∀ e ∈ (contribution ko env fs s).2.2.1, e ∈ st.services := by
      intro s hs e he
      rw [hsv]
      exact services_contributions ko env fs _ s ((mem_enabledSvcs ko s).mpr hs) e he
    refine ⟨fun n b hev => (load_in_trace h n b hev).1, ?_, ?_, ?_, ?_⟩
    · intro hf
      exact hmem Svc.rand hf _ (by simp [contribution])
    · intro hf
      exact hmem Svc.dice hf _ (by simp [contribution])
    · intro hf
      exact hmem Svc.dict hf _ (by simp [contribution])
    · intro hf hs
      have hfx := hmem Svc.fx hf
        ("fx", (fxRestore ko env fs (ko.duration "fx.refresh_interval")).1)
        (by simp [contribution])
      refine ⟨?_, ?_, ?_⟩
      · rw [hmux]
        apply List.mem_append_left
        exact List.mem_map.mpr ⟨Svc.fx, (mem_enabledSvcs ko Svc.fx).mpr hf, rfl⟩
      · intro e hread
        constructor
        · have : (fxRestore ko env fs (ko.duration "fx.refresh_interval")).1
              = env.fxNew (ko.duration "fx.refresh_interval") := by
            unfold fxRestore
            simp only [hs, if_true, hread]
            cases e <;> rfl
          rw [this] at hfx
          exact hfx
        · intro n b hev
          have := (load_in_trace h n b hev).2.2.2
          rw [hread] at this
          cases this
      · intro b hread
        have : (fxRestore ko env fs (ko.duration "fx.refresh_interval")).1
            = (env.fxLoad (env.fxNew (ko.duration "fx.refresh_interval")) b).1 := by
          unfold fxRestore
          simp only [hs, if_true, hread]
        rw [this] at hfx
        exact hfx

theorem restoreCalls_other (ko : Koanf) (env : Env) (fs : FS) (l : List Svc)
    (h : Svc.fx ∉ l) : restoreCalls (contributions ko env fs l).2.2.2 = [] := by
  simp only [contributions]
  induction l with
  | nil => rfl
  | cons s rest ih =>
    have h1 : s ≠ Svc.fx := fun hh => h (by simp [hh])
    have h2 : Svc.fx ∉ rest := fun hh => h (List.mem_cons_of_mem _ hh)
    rw [List.flatMap_cons]
    unfold restoreCalls at ih ⊢
    rw [List.filter_append, ih h2]
    cases s <;> first | rfl | exact absurd rfl h1

theorem restoreCalls_fx (ko : Koanf) (env : Env) (fs : FS) (d : Int) :
    restoreCalls (fxRestore ko env fs d).2
      = if ko.bool "fx.snapshot_enabled" then
          Event.readFile (ko.string "fx.snapshot_file")
            :: (match ReadFile env.readFault fs (ko.string "fx.snapshot_file") with
                | .ok b => [Event.load "fx" b]
                | .error _ => [])
        else [] := by
  unfold fxRestore
  by_cases hs : ko.bool "fx.snapshot_enabled" = true
  · simp only [hs, if_true]
    cases hread : ReadFile env.readFault fs (ko.string "fx.snapshot_file") with
    | error e => cases e <;> rfl
    | ok b =>
      simp only []
      cases (env.fxLoad (env.fxNew d) b).2 <;> rfl
  · simp [hs, restoreCalls]

theorem register_contributions (ko : Koanf) (env : Env) (fs : FS) (l : List Svc) (n : String)
    (h : Event.register n ∈ (contributions ko env fs l).2.2.2) : ∃ s ∈ l, n = s.name := by
  simp only [contributions, List.mem_flatMap] at h
  obtain ⟨s, hs, hev⟩ := h
  refine ⟨s, hs, ?_⟩
  cases s with
  | fx =>
    simp only [contribution, List.mem_append, List.mem_cons, List.mem_singleton,
      List.not_mem_nil, or_false] at hev
    rcases hev with hev | hev | hev
    · rcases fxRestore_events ko env fs _ _ hev with ⟨f, a, hf⟩ | ⟨hf, _⟩ | ⟨b, hf, _⟩ <;>
        cases hf
    · cases hev; rfl
    · cases hev
  | rand =>
    simp only [contribution, List.mem_cons, List.mem_singleton, List.not_mem_nil,
      or_false] at hev
    rcases hev with hev | hev
    · cases hev; rfl
    · cases hev
  | dice =>
    simp only [contribution, List.mem_cons, List.mem_singleton, List.not_mem_nil,
      or_false] at hev
    rcases hev with hev | hev
    · cases hev; rfl
    · cases hev
  | dict =>
    simp only [contribution, List.mem_cons, List.mem_singleton, List.not_mem_nil,
      or_false] at hev
    rcases hev with hev | hev
    · cases hev; rfl
    · cases hev
  | pi => simp only [contribution, List.mem_singleton] at hev; cases hev
  | ip => simp only [contribution, List.mem_singleton] at hev; cases hev

theorem restoreCalls_newRR {α : Type} (l : List α) (f : α → String) :
    restoreCalls (l.map (fun a => Event.newRR (f a))) = [] := by
  unfold restoreCalls
  rw [List.filter_eq_nil_iff]
  intro ev hev
  obtain ⟨t, _, rfl⟩ := List.mem_map.mp hev
  simp

theorem fx_registered {ko : Koanf} {env : Env} {fs : FS} {st : St}
    (h : main ko env fs = .ok st) (hf : ko.bool "fx.enabled" = true) :
    ("fx", (fxRestore ko env fs (ko.duration "fx.refresh_interval")).1) ∈ st.services := by
  obtain ⟨_, _, _, _, _, _, hsv, _, _⟩ := main_ok h
  rw [hsv]
  exact services_contributions ko env fs _ Svc.fx ((mem_enabledSvcs ko Svc.fx).mpr hf) _
    (by simp [contribution])

theorem fxRestore_loaded (ko : Koanf) (env : Env) (fs : FS) (d : Int) (b : Bytes)
    (hs : ko.bool "fx.snapshot_enabled" = true)
    (hread : ReadFile env.readFault fs (ko.string "fx.snapshot_file") = .ok b) :
    (fxRestore ko env fs d).1 = (env.fxLoad (env.fxNew d) b).1 := by
  unfold fxRestore
  simp only [hs, if_true, hread]

/-- C5 as stated fails: with `dict` enabled and `dict.snapshot_enabled` set, and a
snapshot file on disk, startup completes and registers `dict`, but `main` never reads
the file and never calls `Load`. -/
theorem dict_snapshot_not_restored :
    koDictSnap.bool "dict.enabled" = true
      ∧ koDictSnap.bool "dict.snapshot_enabled" = true
      ∧ fsDict (koDictSnap.string "dict.snapshot_file") = some [9]
      ∧ failureOf (main koDictSnap envDemo fsDict) = none
      ∧ (reached (main koDictSnap envDemo fsDict)).services.map Prod.fst = ["dict"]
      ∧ restoreCalls (reached (main koDictSnap envDemo fsDict)).world.events = [] := by
  decide

/-- C5, amended: at startup the restore is made for the currency service only.  When
startup completes, the `os.ReadFile` and `Load` calls in the trace are: none, unless
`fx` is enabled with `fx.snapshot_enabled` set; in that case one read of
`fx.snapshot_file` followed, if data is read, by one `Load` of `fx` with that data.
All of them precede the registration of `fx`, and the service registered is the one
`Load` left.  For `rand`, `dice` and `dict` no file is read and no `Load` is called,
whatever their `snapshot_enabled` flags. -/
theorem restore_only_for_fx (ko : Koanf) (env : Env) (fs : FS) (st : St)
    (h : main ko env fs = .ok st) :
    restoreCalls st.world.events
        = (if ko.bool "fx.enabled" && ko.bool "fx.snapshot_enabled" then
            Event.readFile (ko.string "fx.snapshot_file")
              :: (match ReadFile env.readFault fs (ko.string "fx.snapshot_file") with
                  | .ok b => [Event.load "fx" b]
                  | .error _ => [])
          else [])
      ∧ (ko.bool "fx.enabled" = true →
          ∃ before after, st.world.events = before ++ [Event.register "fx"] ++ after
            ∧ Event.register "fx" ∉ before ∧ restoreCalls after = [])
      ∧ (ko.bool "fx.enabled" = true → ko.bool "fx.snapshot_enabled" = true →
          ∀ b, ReadFile env.readFault fs (ko.string "fx.snapshot_file") = .ok b →
            ("fx", (env.fxLoad (env.fxNew (ko.duration "fx.refresh_interval")) b).1)
              ∈ st.services) := by
  obtain ⟨_, _, _, _, _, _, _, h8, _⟩ := main_ok h
  have htail : restoreCalls
      ((enabledSvcs ko).map (fun s => Event.newRR
          (recordText (ko.string "server.domain") (portOf (ko.string "server.address")) s))
        ++ [Event.handleFunc "help.", Event.handleFunc "."]) = [] := by
    have := restoreCalls_newRR (enabledSvcs ko)
      (recordText (ko.string "server.domain") (portOf (ko.string "server.address")))
    unfold restoreCalls at this ⊢
    rw [List.filter_append]
    rw [this]; rfl
  rw [List.append_assoc] at h8
  generalize (enabledSvcs ko).map (fun s => Event.newRR
      (recordText (ko.string "server.domain") (portOf (ko.string "server.address")) s))
    ++ [Event.handleFunc "help.", Event.handleFunc "."] = T at h8 htail
  have hnd : (enabledSvcs ko).Nodup :=
    (List.filter_sublist _ : List.Sublist (enabledSvcs ko) allSvcs).nodup (by decide)
  by_cases hf : ko.bool "fx.enabled" = true
  · have hmem : Svc.fx ∈ enabledSvcs ko := (mem_enabledSvcs ko Svc.fx).mpr hf
    obtain ⟨l1, l2, hl⟩ := List.append_of_mem hmem
    rw [hl] at hnd
    have hn1 : Svc.fx ∉ l1 := by
      intro hh
      rw [List.nodup_middle, List.nodup_cons] at hnd
      exact hnd.1 (List.mem_append_left _ hh)
    have hn2 : Svc.fx ∉ l2 := by
      intro hh
      rw [List.nodup_middle, List.nodup_cons] at hnd
      exact hnd.1 (List.mem_append_right _ hh)
    have hev : st.world.events
        = (contributions ko env fs l1).2.2.2
          ++ (fxRestore ko env fs (ko.duration "fx.refresh_interval")).2
          ++ [Event.register "fx"]
          ++ (Event.handleFunc "fx." :: (contributions ko env fs l2).2.2.2 ++ T) := by
      rw [h8, hl]
      rw [show l1 ++ Svc.fx :: l2 = l1 ++ ([Svc.fx] ++ l2) from rfl]
      simp only [contributions_append]
      simp [contributions, contribution]
    refine ⟨?_, ?_, ?_⟩
    · rw [hev]
      unfold restoreCalls at htail ⊢
      have hA := restoreCalls_other ko env fs l1 hn1
      have hB := restoreCalls_other ko env fs l2 hn2
      have hC := restoreCalls_fx ko env fs (ko.duration "fx.refresh_interval")
      unfold restoreCalls at hA hB hC
      simp only [List.filter_append, List.filter_cons, hA, hB, hC, htail, List.nil_append,
        List.append_nil, List.filter_nil, hf, Bool.true_and]
      simp
    · intro _
      refine ⟨_, _, hev, ?_, ?_⟩
      · intro hin
        rcases List.mem_append.mp hin with hin | hin
        · obtain ⟨s, hs, hname⟩ := register_contributions ko env fs l1 "fx" hin
          have : s = Svc.fx := by cases s <;> first | rfl | (revert hname; decide)
          exact hn1 (this ▸ hs)
        · rcases fxRestore_events ko env fs _ _ hin with ⟨f, a, hf⟩ | ⟨hf, _⟩ | ⟨b, hf, _⟩ <;>
            cases hf
      · have hB := restoreCalls_other ko env fs l2 hn2
        unfold restoreCalls at htail hB ⊢
        simp only [List.filter_append, List.filter_cons, hB, htail, List.append_nil]
        rfl
    · intro _ hs b hread
      rw [← fxRestore_loaded ko env fs _ b hs hread]
      exact fx_registered h hf
  · have hf0 : ko.bool "fx.enabled" = false := by simpa using hf
    have hn : Svc.fx ∉ enabledSvcs ko := fun hh => hf ((mem_enabledSvcs ko Svc.fx).mp hh)
    refine ⟨?_, fun hh => absurd hh hf, fun hh => absurd hh hf⟩
    rw [h8]
    have hA := restoreCalls_other ko env fs _ hn
    unfold restoreCalls at hA htail ⊢
    rw [List.filter_append, hA, htail]
    simp [hf0]

theorem restore_only_for_fx_witness :
    restoreCalls (reached (main koDemo envLoadFails fsDemo)).world.events
        = (if koDemo.bool "fx.enabled" && koDemo.bool "fx.snapshot_enabled" then
            Event.readFile (koDemo.string "fx.snapshot_file")
              :: (match ReadFile envLoadFails.readFault fsDemo
                    (koDemo.string "fx.snapshot_file") with
                  | .ok b => [Event.load "fx" b]
                  | .error _ => [])
          else [])
      ∧ (koDemo.bool "fx.enabled" = true →
          ∃ before after,
            (reached (main koDemo envLoadFails fsDemo)).world.events
                = before ++ [Event.register "fx"] ++ after
              ∧ Event.register "fx" ∉ before ∧ restoreCalls after = [])
      ∧ (koDemo.bool "fx.enabled" = true → koDemo.bool "fx.snapshot_enabled" = true →
          ∀ b, ReadFile envLoadFails.readFault fsDemo (koDemo.string "fx.snapshot_file")
              = .ok b →
            ("fx", (envLoadFails.fxLoad
                (envLoadFails.fxNew (koDemo.duration "fx.refresh_interval")) b).1)
              ∈ (reached (main koDemo envLoadFails fsDemo)).services) :=
  restore_only_for_fx koDemo envLoadFails fsDemo (reached (main koDemo envLoadFails fsDemo))
    (ok_of_no_failure _ (by decide))

theorem restore_never_fatal_witness :
    (∃ w1, loadSnapshot koDemo envReadFails "fx" emptyWorld = .ok (none, w1))
      ∧ failureOf (main koDemo envLoadFails fsDemo)
          = failureOf (main koDemo envReadFails fsDemo)
      ∧ ("fx", envReadFails.fxNew (koDemo.duration "fx.refresh_interval"))
          ∈ (reached (main koDemo envReadFails fsDemo)).services
      ∧ (∀ n b, Event.load n b ∉ (reached (main koDemo envReadFails fsDemo)).world.events) :=
  ⟨(restore_never_fatal koDemo envReadFails fsDemo).1 "fx" emptyWorld
      (.other "input/output error") (by decide) (by decide) rfl,
    (restore_never_fatal koDemo envReadFails fsDemo).2.1 envLoadFails fsDemo rfl,
    ((((restore_never_fatal koDemo envReadFails fsDemo).2.2
      (reached (main koDemo envReadFails fsDemo))
      (ok_of_no_failure _ (by decide))).2.2.2.2 (by decide) (by decide)).2.1
        (.other "input/output error") rfl).1,
    ((((restore_never_fatal koDemo envReadFails fsDemo).2.2
      (reached (main koDemo envReadFails fsDemo))
      (ok_of_no_failure _ (by decide))).2.2.2.2 (by decide) (by decide)).2.1
        (.other "input/output error") rfl).2⟩

end DnsAbuse
